import Mathlib

/-!
Verification of the deterministic synthetic-data generation core of
`scripts/seed-scale.py` (school-library-lms).

The Python source is shallowly embedded: pure helpers become Lean
functions, the staged allocator of `main()` becomes a pipeline of pure
stage functions, and every place where the source consumes the seeded
random stream (`rng.choice`, `rng.randint`, `rng.shuffle`, `rng.random`)
is abstracted as an explicit input (a function or a list), universally
quantified in the theorems.  Machine integers are `Nat`/`Int` with
explicit `% 2^32` where the underlying algorithm (SHA-1) wraps.
Record fields that no claim touches (free-text names, call numbers,
note fields, most timestamps) are omitted; every field that is modelled
is translated from the source line by line.
-/

namespace SeedScale

/-- Zero-padding decimal formatter, embedding Python's `f"{n:0wd}"`
(used for the discriminators `{i:06d}`, `{barcode_counter:08d}`, ...). -/
def pad (w n : Nat) : String :=
  let s := toString n
  if s.length < w then String.mk (List.replicate (w - s.length) '0') ++ s else s

/-- UTF-8 encoding of a single character (byte values as `Nat`),
embedding Python's `str.encode("utf-8")` at the character level. -/
def utf8Char (c : Char) : List Nat :=
  let n := c.toNat
  if n < 128 then [n]
  else if n < 2048 then [192 + n / 64, 128 + n % 64]
  else if n < 65536 then [224 + n / 4096, 128 + n / 64 % 64, 128 + n % 64]
  else [240 + n / 262144, 128 + n / 4096 % 64, 128 + n / 64 % 64, 128 + n % 64]

/-- UTF-8 encoding of a string as a byte list. -/
def utf8Bytes (s : String) : List Nat := (s.data.map utf8Char).flatten

/-- Truncation to a 32-bit word. -/
def w32 (n : Nat) : Nat := n % 4294967296

/-- 32-bit left rotation by `k` (for `x < 2^32`). -/
def rotl (k x : Nat) : Nat := w32 (x * 2 ^ k + x / 2 ^ (32 - k))

/-- SHA-1 round function by round index. -/
def sha1F (t b c d : Nat) : Nat :=
  if t < 20 then (b &&& c) ||| ((b ^^^ 4294967295) &&& d)
  else if t < 40 then (b ^^^ c) ^^^ d
  else if t < 60 then ((b &&& c) ||| (b &&& d)) ||| (c &&& d)
  else (b ^^^ c) ^^^ d

/-- SHA-1 round constant by round index. -/
def sha1K (t : Nat) : Nat :=
  if t < 20 then 1518500249 else if t < 40 then 1859775393
  else if t < 60 then 2400959708 else 3395469782

/-- A byte string packed as a big-endian natural number (the whole SHA-1
state below is carried in naturals, so evaluation stays in machine
bignum arithmetic). -/
def bytesToNatAux (acc : Nat) : List Nat → Nat
  | [] => acc
  | b :: bs => bytesToNatAux (acc * 256 + b) bs

/-- Big-endian packing of a byte list. -/
def bytesToNat (bs : List Nat) : Nat := bytesToNatAux 0 bs

/-- Schedule word `W[t]` of the current block: the block word itself for
`t < 16`, else `rotl 1` of the XOR of `W[t-3], W[t-8], W[t-14], W[t-16]`
read from the sliding 16-word window `w` (most recent word lowest). -/
def sha1WNat (block t w : Nat) : Nat :=
  if t < 16 then block / 2 ^ (32 * (15 - t)) % 4294967296
  else rotl 1 ((((w / 2 ^ 64) % 4294967296) ^^^ ((w / 2 ^ 224) % 4294967296)) ^^^
               (((w / 2 ^ 416) % 4294967296) ^^^ ((w / 2 ^ 480) % 4294967296)))

/-- The remaining `fuel` SHA-1 rounds from round `t`, with schedule
window `w` and state `(a, b, c, d, e)`. -/
def sha1GoNat (block : Nat) :
    Nat → Nat → Nat → Nat × Nat × Nat × Nat × Nat → Nat × Nat × Nat × Nat × Nat
  | 0, _, _, st => st
  | fuel + 1, t, w, (a, b, c, d, e) =>
    let wt := sha1WNat block t w
    sha1GoNat block fuel (t + 1) ((w * 4294967296 + wt) % 2 ^ 512)
      (w32 (rotl 5 a + sha1F t b c d + e + sha1K t + wt), a, rotl 30 b, c, d)

/-- One SHA-1 compression step on a 64-byte (512-bit) block. -/
def sha1CompressNat (block : Nat) (h : Nat × Nat × Nat × Nat × Nat) :
    Nat × Nat × Nat × Nat × Nat :=
  let r := sha1GoNat block 80 0 0 h
  (w32 (h.1 + r.1), w32 (h.2.1 + r.2.1), w32 (h.2.2.1 + r.2.2.1),
   w32 (h.2.2.2.1 + r.2.2.2.1), w32 (h.2.2.2.2 + r.2.2.2.2))

/-- Fold the compression function over the `k` 512-bit blocks of the
packed padded message `p` (first block in the highest bits). -/
def sha1ChunksNat : Nat → Nat → Nat × Nat × Nat × Nat × Nat → Nat × Nat × Nat × Nat × Nat
  | 0, _, h => h
  | k + 1, p, h =>
    sha1ChunksNat k (p % 2 ^ (512 * k)) (sha1CompressNat (p / 2 ^ (512 * k)) h)

/-- The 160-bit SHA-1 digest of a message of `len` bytes packed as
`msgN`: pad with `0x80`, zeros up to 56 mod 64, and the 64-bit
big-endian bit length, then compress each block. -/
def sha1Nat (len msgN : Nat) : Nat :=
  let pz := (119 - len % 64) % 64
  let h := sha1ChunksNat ((len + 9 + pz) / 64)
    ((msgN * 256 + 128) * 2 ^ (8 * (pz + 8)) + 8 * len)
    (1732584193, 4023233417, 2562383102, 271733878, 3285377520)
  (((h.1 * 4294967296 + h.2.1) * 4294967296 + h.2.2.1) * 4294967296 + h.2.2.2.1) *
    4294967296 + h.2.2.2.2

/-- The `k` big-endian bytes of `n`. -/
def natToBytes : Nat → Nat → List Nat
  | 0, _ => []
  | k + 1, n => n / 2 ^ (8 * k) % 256 :: natToBytes k n

/-- SHA-1 digest (20 bytes) of a byte list. -/
def sha1 (msg : List Nat) : List Nat :=
  natToBytes 20 (sha1Nat msg.length (bytesToNat msg))

/-- The fixed UUID namespace of the script:
`uuid.UUID("7b4a3b9d-9a55-4f03-9d9e-7d9edb1c5f6b")`, as its 16 bytes. -/
def nsBytes : List Nat := [123, 74, 59, 157, 154, 85, 79, 3, 157, 158, 125, 158, 219, 28, 95, 107]

/-- Lower-case hex digit. -/
def hexDigit (n : Nat) : Char := if n < 10 then Char.ofNat (48 + n) else Char.ofNat (87 + n)

/-- Two-digit hex of a byte. -/
def byteHex (b : Nat) : String := String.mk [hexDigit (b / 16), hexDigit (b % 16)]

/-- Hex string of a byte list. -/
def bytesHex (bs : List Nat) : String := String.join (bs.map byteHex)

/-- The 16 bytes of a version-5 UUID for `name` under the script's fixed
namespace: SHA-1 of (namespace bytes ++ UTF-8 of name), truncated to 16
bytes, with the version nibble set to 5 and the RFC 4122 variant bits set,
exactly as `uuid.uuid5` computes it. -/
def uuid5Bytes (name : String) : List Nat :=
  ((sha1 (nsBytes ++ utf8Bytes name)).take 16).enum.map
    (fun p => if p.1 = 6 then p.2 % 16 + 80 else if p.1 = 8 then p.2 % 64 + 128 else p.2)

/-- Embedding of the script's `uuid5(ns, name)` helper (which returns
`str(uuid.uuid5(ns, name))`): hyphenated lower-case hex text. -/
def uuid5Str (name : String) : String :=
  let b := uuid5Bytes name
  bytesHex (b.take 4) ++ "-" ++ bytesHex ((b.drop 4).take 2) ++ "-" ++
    bytesHex ((b.drop 6).take 2) ++ "-" ++ bytesHex ((b.drop 8).take 2) ++ "-" ++
    bytesHex (b.drop 10)

/-!
## Vocabulary validation (`validate_rules_vocab` inner helpers)

`assert_variant_mapping` walks the variant mapping (a Python dict,
embedded as an association list in iteration order) and raises
`SystemExit` (embedded as `Except.error` with the message) on the first
integrity violation.  `assert_acyclic` runs a depth-first traversal of
the `broader` edges; the in-recursion `visiting` set always equals the
set of elements of the current `path` list in the source, so the
embedding keeps just the path.  The Python recursion carries no fuel;
the embedding adds a fuel argument (with `none` meaning exhaustion) and
separately proves that the fuel chosen in `assertAcyclicE` is never
exhausted.
-/

instance {ε α : Type} [DecidableEq ε] [DecidableEq α] : DecidableEq (Except ε α) := fun a b =>
  match a, b with
  | .ok x, .ok y =>
    if h : x = y then isTrue (by rw [h]) else isFalse (by intro hc; cases hc; exact h rfl)
  | .error x, .error y =>
    if h : x = y then isTrue (by rw [h]) else isFalse (by intro hc; cases hc; exact h rfl)
  | .ok _, .error _ => isFalse (by intro hc; cases hc)
  | .error _, .ok _ => isFalse (by intro hc; cases hc)

/-- Python's `str.strip()` (as used on labels and variant labels): drop
leading and trailing whitespace characters. -/
def pyStrip (s : String) : String :=
  String.mk (((s.data.dropWhile Char.isWhitespace).reverse.dropWhile Char.isWhitespace).reverse)

/-- One step of `assert_variant_mapping`'s inner loop over the variants of
one preferred label `pref`: `used` is the `used_variants` reverse map
(variant ↦ owning preferred label; `used_variants[vv] = pref` is embedded
as prepending a binding, so lookup finds the latest one).  The source's
`if owner and owner != pref` tests Python truthiness of `owner`, hence
the `owner ≠ ""` conjunct. -/
def checkVariants (kind : String) (preferred : List String) (pref : String)
    (used : List (String × String)) :
    List String → Except String (List (String × String))
  | [] => .ok used
  | v :: vs =>
    let vv := pyStrip v
    if vv = "" then
      .error ("[seed-scale] rules vocab " ++ kind ++ ": empty variant_label under " ++ pref)
    else if vv = pref then
      .error ("[seed-scale] rules vocab " ++ kind ++
        ": variant_label equals preferred_label: " ++ pref)
    else if vv ∈ preferred then
      .error ("[seed-scale] rules vocab " ++ kind ++
        ": variant_label conflicts with another preferred_label: variant=" ++ vv)
    else
      match (used.find? (fun p => p.1 = vv)).map Prod.snd with
      | some owner =>
        if owner ≠ "" ∧ owner ≠ pref then
          .error ("[seed-scale] rules vocab " ++ kind ++
            ": variant_label used by multiple terms: variant=" ++ vv ++
            " owners=" ++ owner ++ "," ++ pref)
        else checkVariants kind preferred pref ((vv, pref) :: used) vs
      | none => checkVariants kind preferred pref ((vv, pref) :: used) vs

/-- Embedding of `assert_variant_mapping(kind, preferred, mapping)`.
The Python dict `mapping` is embedded as an association list in
iteration (= insertion) order; `preferred` is the preferred-label set. -/
def assertVariantMappingAux (kind : String) (preferred : List String)
    (used : List (String × String)) :
    List (String × List String) → Except String Unit
  | [] => .ok ()
  | (pref, variants) :: rest =>
    if pref ∈ preferred then
      match checkVariants kind preferred pref used variants with
      | .error e => .error e
      | .ok used2 => assertVariantMappingAux kind preferred used2 rest
    else
      .error ("[seed-scale] rules vocab " ++ kind ++
        ": variants map key not in preferred_labels: " ++ pref)

/-- `assert_variant_mapping` entry point (`used_variants` starts empty). -/
def assertVariantMapping (kind : String) (preferred : List String)
    (mapping : List (String × List String)) : Except String Unit :=
  assertVariantMappingAux kind preferred [] mapping

/-!
### `assert_acyclic`

The adjacency map `graph` built from the `broader` edges maps each child
to its parents in edge order; `graph.keys()` iterates children in first
occurrence order.
-/

/-- `graph.get(node, [])`: the parents of `node` in edge order. -/
def parentsOf (edges : List (String × String)) (n : String) : List String :=
  (edges.filter (fun e => e.1 = n)).map Prod.snd

/-- The edge relation of the `broader` graph (child to parent). -/
def edgeRel (edges : List (String × String)) (a b : String) : Prop := (a, b) ∈ edges

/-- First-occurrence deduplication (order of Python dict keys). -/
def dedupFirstAux (seen : List String) : List String → List String
  | [] => []
  | x :: xs =>
    if x ∈ seen then dedupFirstAux seen xs else x :: dedupFirstAux (x :: seen) xs

/-- `graph.keys()`: the distinct children, in first occurrence order. -/
def keysOf (edges : List (String × String)) : List String :=
  dedupFirstAux [] (edges.map Prod.fst)

/-- All endpoints of the edge list (used only to size the fuel). -/
def allNodes (edges : List (String × String)) : List String :=
  dedupFirstAux [] (edges.map Prod.fst ++ edges.map Prod.snd)

/-- The mutually recursive `dfs` of `assert_acyclic`, flattened to a
worklist: `dfsM edges fuel ns path visited` processes the nodes `ns` in
order, all reached with the current recursion path `path` (the source's
`path`, whose element set is exactly the `visiting` set) and the
accumulated `visited` list (the source's `visited` set, kept in
insertion order).  `some (.error p)` is the `SystemExit` carrying the
reported path `path + [node]`; `none` is fuel exhaustion, which
`assertAcyclicE`'s fuel choice provably never produces. -/
def dfsM (edges : List (String × String)) :
    Nat → List String → List String → List String →
    Option (Except (List String) (List String))
  | _, [], _, visited => some (.ok visited)
  | 0, _ :: _, _, _ => none
  | fuel + 1, n :: ns, path, visited =>
    if n ∈ path then some (.error (path ++ [n]))
    else if n ∈ visited then dfsM edges fuel ns path visited
    else
      match dfsM edges fuel (parentsOf edges n) (path ++ [n]) visited with
      | none => none
      | some (.error e) => some (.error e)
      | some (.ok v2) => dfsM edges fuel ns path (v2 ++ [n])

/-- A provably sufficient fuel for `dfsM` over the whole graph (the
fuel is an artifact of the embedding; the source recursion carries
none). -/
def acyclicFuel (edges : List (String × String)) : Nat :=
  (keysOf edges).length + (allNodes edges).length * (edges.length + 1)

/-- Embedding of `assert_acyclic(kind, broader_edges)`: run the DFS from
every key with enough fuel; `.error p` carries the reported cycle path. -/
def assertAcyclicE (edges : List (String × String)) : Except (List String) Unit :=
  match dfsM edges (acyclicFuel edges) (keysOf edges) [] [] with
  | some (.ok _) => .ok ()
  | some (.error e) => .error e
  | none => .error []

/-- "The reported path names every label on a cycle": some nonempty node
list `c` closes into a directed cycle of the `broader` graph (`c`
followed by its own first node is an edge chain) and every label of `c`
appears in the reported path `e`. -/
def CycleIn (edges : List (String × String)) (e : List String) : Prop :=
  ∃ c : List String, c ≠ [] ∧
    List.Chain' (edgeRel edges) (c ++ c.take 1) ∧ ∀ x ∈ c, x ∈ e

/-- DFS finish-order invariant: every recorded node's parents are
recorded at a strictly smaller index, so `broader` edges strictly
decrease the index inside the visited list. -/
def RankedInv (edges : List (String × String)) (w : List String) : Prop :=
  ∀ n ∈ w, ∀ p ∈ parentsOf edges n, p ∈ w ∧ w.indexOf p < w.indexOf n

/-!
## The allocator (`main()`), stages 3.3 and 3.5–3.10

The quantity configuration becomes `ScaleConfig`.  Every consumption of
the seeded random stream is abstracted into the `Streams` structure:
`rng.randint`/`rng.random`-derived values become functions of the loop
position, `rng.choice(pool)` becomes an index into the pool (`getD` with
a dummy default; theorems that need it add in-range hypotheses), and
`rng.shuffle(idx_all)` becomes a function of the index list (theorems
that need it hypothesise that it returns a permutation).  Free-text
fields (names, titles, call numbers) and most timestamps are not
modelled; `acquiredAt` is kept because it records the wall-clock
dependency of the exported `items` table.
-/

/-- The quantity/identity part of `ScaleConfig` (`load_config`). -/
structure ScaleConfig where
  orgCode : String
  seed : Nat
  students : Nat
  teachers : Nat
  bibs : Nat
  maxCopiesPerBib : Nat
  openLoans : Nat
  closedLoans : Nat
  readyHolds : Nat
  queuedHolds : Nat
deriving DecidableEq

/-- The abstracted random stream of one run (see module comment). -/
structure Streams where
  copies : Nat → Nat
  loc : Nat → String
  acqDays : Nat → Nat
  shuffle : List Nat → List Nat
  openB : Nat → Nat
  closedB : Nat → Nat
  closedI : Nat → Nat
  readyU : Nat → Nat
  qBib : Nat → Nat
  qU : Nat → Nat

/-- A generated user row (modelled fields of stage 3.3). -/
structure UserR where
  id : String
  externalId : String
  role : String
  status : String
deriving DecidableEq

/-- A generated bibliographic record (only the id is claim-relevant). -/
structure BibR where
  id : String
deriving DecidableEq

/-- A generated item copy (modelled fields of stages 3.6–3.7).
`acquiredAt` is the POSIX timestamp (seconds) of
`now_utc() - timedelta(days=...)`. -/
structure ItemR where
  id : String
  bibId : String
  barcode : String
  locationId : String
  status : String
  acquiredAt : Int
deriving DecidableEq

/-- A generated loan row (modelled fields of stage 3.9). -/
structure LoanR where
  id : String
  itemId : String
  userId : String
  status : String
deriving DecidableEq

/-- A generated hold row (modelled fields of stage 3.10). -/
structure HoldR where
  id : String
  bibId : String
  userId : String
  status : String
  assignedItemId : Option String
deriving DecidableEq

def dummyUser : UserR := ⟨"", "", "", ""⟩

def dummyItem : ItemR := ⟨"", "", "", "", "", 0⟩

def dummyLoan : LoanR := ⟨"", "", "", ""⟩

/-- `uuid5(ns, f"org:{cfg.org_code}")`. -/
def orgIdStr (org : String) : String := uuid5Str ("org:" ++ org)

/-- `uuid5(ns, f"{cfg.org_code}:loc:{code}")`. -/
def locIdStr (org code : String) : String := uuid5Str (org ++ ":loc:" ++ code)

/-- `uuid5(ns, f"{cfg.org_code}:user:{external_id}")`. -/
def userIdStr (org ext : String) : String := uuid5Str (org ++ ":user:" ++ ext)

/-- `uuid5(ns, f"{cfg.org_code}:bib:{i:06d}")`. -/
def bibIdStr (org : String) (i : Nat) : String := uuid5Str (org ++ ":bib:" ++ pad 6 i)

/-- `uuid5(ns, f"{cfg.org_code}:item:{barcode_counter:08d}")`. -/
def itemIdStr (org : String) (k : Nat) : String := uuid5Str (org ++ ":item:" ++ pad 8 k)

/-- Stage 3.3: the four login-enabled sentinel users, the bulk teachers
`T0002..`, and the bulk students `S1130001..` (skipping `S1130123`,
which was already created; every 97th student is inactive). -/
def genUsers (cfg : ScaleConfig) : List UserR :=
  [⟨userIdStr cfg.orgCode "A0001", "A0001", "admin", "active"⟩,
   ⟨userIdStr cfg.orgCode "L0001", "L0001", "librarian", "active"⟩,
   ⟨userIdStr cfg.orgCode "T0001", "T0001", "teacher", "active"⟩,
   ⟨userIdStr cfg.orgCode "S1130123", "S1130123", "student", "active"⟩] ++
  (List.range' 2 (cfg.teachers - 1)).map
    (fun i => ⟨userIdStr cfg.orgCode ("T" ++ pad 4 i), "T" ++ pad 4 i, "teacher", "active"⟩) ++
  (List.range' 1 cfg.students).filterMap
    (fun i =>
      if "S113" ++ pad 4 i = "S1130123" then none
      else some ⟨userIdStr cfg.orgCode ("S113" ++ pad 4 i), "S113" ++ pad 4 i, "student",
        if i % 97 = 0 then "inactive" else "active"⟩)

/-- The `login_user_ids` set: the login-enabled teacher and student. -/
def loginIds (cfg : ScaleConfig) : List String :=
  [userIdStr cfg.orgCode "T0001", userIdStr cfg.orgCode "S1130123"]

/-- Stage 3.5: the bibliographic records, `i = 1..cfg.bibs` (only ids
are modelled; records 1 and 2 are the sentinel bibs). -/
def genBibs (cfg : ScaleConfig) : List BibR :=
  (List.range' 1 cfg.bibs).map (fun i => ⟨bibIdStr cfg.orgCode i⟩)

/-- Stage 3.6 copy count: sentinel bibs (1 and 2) get exactly one copy,
others `rng.randint(1, cfg.max_copies_per_bib)` (abstracted). -/
def nCopiesFor (cfg : ScaleConfig) (s : Streams) (i : Nat) : Nat :=
  if i = 1 ∨ i = 2 then 1 else s.copies i

/-- One item row of stage 3.6 for bib `i` with barcode counter `k`:
sentinel copies are pinned to MAIN, others get the
`pick_location_id()` draw; status starts `available`. -/
def mkItem (cfg : ScaleConfig) (s : Streams) (now : Int) (i k : Nat) : ItemR :=
  { id := itemIdStr cfg.orgCode k
    bibId := bibIdStr cfg.orgCode i
    barcode := "SCL-" ++ pad 8 k
    locationId := if i = 1 ∨ i = 2 then locIdStr cfg.orgCode "MAIN" else s.loc k
    status := "available"
    acquiredAt := now - (s.acqDays k : Int) * 86400 }

/-- Stage 3.6 loop over the remaining `b` bibs starting at bib `i` with
barcode counter `k`. -/
def genItemsAux (cfg : ScaleConfig) (s : Streams) (now : Int) :
    Nat → Nat → Nat → List ItemR
  | 0, _, _ => []
  | b + 1, i, k =>
    (List.range (nCopiesFor cfg s i)).map (fun c => mkItem cfg s now i (k + c)) ++
      genItemsAux cfg s now b (i + 1) (k + nCopiesFor cfg s i)

/-- Stage 3.6: all item copies, bibs `1..cfg.bibs`, barcodes from 1. -/
def genItems (cfg : ScaleConfig) (s : Streams) (now : Int) : List ItemR :=
  genItemsAux cfg s now cfg.bibs 1 1

/-- The tracked sentinel item indexes (`sentinel_available_item_index`,
`sentinel_unavailable_item_index`): the first generated item (index 0)
is the sole copy of sentinel bib 1, the second (index 1) the sole copy
of sentinel bib 2; `genItemsAux_sentinels` below proves this against
`genItems`. -/
def sentinelIdxs (cfg : ScaleConfig) : List Nat :=
  (if 1 ≤ cfg.bibs then [0] else []) ++ (if 2 ≤ cfg.bibs then [1] else [])

/-- `forced_checked_out_indexes`: the unavailable-sentinel copy. -/
def forcedCheckedOut (cfg : ScaleConfig) : List Nat :=
  if 2 ≤ cfg.bibs then [1] else []

/-- `idx_all` before shuffling: all item indexes except the sentinels. -/
def idxAll (cfg : ScaleConfig) (items : List ItemR) : List Nat :=
  (List.range items.length).filter (fun i => i ∉ sentinelIdxs cfg)

/-- Stage 3.7: partition the shuffled non-sentinel indexes into
lost/repair/withdrawn prefixes, then open-loan and ready-hold slices,
assign the statuses in the source's `elif` order, and finally force the
unavailable sentinel to `checked_out`. -/
def assignStatuses (cfg : ScaleConfig) (items : List ItemR) (shuffled : List Nat) :
    List ItemR :=
  let nLost := max 5 (items.length / 200)
  let nRepair := max 5 (items.length / 200)
  let nWithdrawn := max 5 (items.length / 500)
  let lostIdx := shuffled.take nLost
  let repairIdx := (shuffled.drop nLost).take nRepair
  let withdrawnIdx := (shuffled.drop (nLost + nRepair)).take nWithdrawn
  let remaining := shuffled.filter
    (fun i => i ∉ lostIdx ∧ i ∉ repairIdx ∧ i ∉ withdrawnIdx)
  let target := cfg.openLoans - (forcedCheckedOut cfg).length
  let openIdx := remaining.take target
  let remaining2 := remaining.filter (fun i => i ∉ openIdx)
  let readyIdx := remaining2.take cfg.readyHolds
  (items.mapIdx (fun i it =>
    if i ∈ lostIdx then { it with status := "lost" }
    else if i ∈ repairIdx then { it with status := "repair" }
    else if i ∈ withdrawnIdx then { it with status := "withdrawn" }
    else if i ∈ openIdx then { it with status := "checked_out" }
    else if i ∈ readyIdx then { it with status := "on_hold" }
    else it)).mapIdx
    (fun i it => if i ∈ forcedCheckedOut cfg then { it with status := "checked_out" } else it)

/-- `borrowers_active`: active students and teachers. -/
def borrowersActive (users : List UserR) : List UserR :=
  users.filter (fun u => (u.role = "student" ∨ u.role = "teacher") ∧ u.status = "active")

/-- `borrowers_bulk`: active borrowers minus the login accounts, falling
back to all active borrowers when that leaves nobody. -/
def borrowersBulk (users : List UserR) (logins : List String) : List UserR :=
  let b := (borrowersActive users).filter (fun u => u.id ∉ logins)
  if b = [] then borrowersActive users else b

/-- Stage 3.9, open loans: one per `checked_out` item, in item order,
with a `rng.choice(borrowers_bulk)` borrower. -/
def genOpenLoans (cfg : ScaleConfig) (items : List ItemR) (pool : List UserR)
    (s : Streams) : List LoanR :=
  (items.filter (fun it => it.status = "checked_out")).enum.map
    (fun p =>
      { id := uuid5Str (cfg.orgCode ++ ":loan:open:" ++ p.2.id)
        itemId := p.2.id
        userId := (pool.getD (s.openB p.1) dummyUser).id
        status := "open" })

/-- Stage 3.9, closed loans: `i = 1..cfg.closed_loans`, each drawing a
borrower from `borrowers_bulk` and an arbitrary item from `items`. -/
def genClosedLoans (cfg : ScaleConfig) (items : List ItemR) (pool : List UserR)
    (s : Streams) : List LoanR :=
  (List.range' 1 cfg.closedLoans).map
    (fun i =>
      { id := uuid5Str (cfg.orgCode ++ ":loan:closed:" ++ pad 7 i)
        itemId := (items.getD (s.closedI i) dummyItem).id
        userId := (pool.getD (s.closedB i) dummyUser).id
        status := "closed" })

/-- The `(user_id, bib_id)` key of `active_hold_keys`. -/
def holdKey (h : HoldR) : String × String := (h.userId, h.bibId)

/-- Stage 3.10, ready holds: walk the enumerated `on_hold` items
threading `active_hold_keys`; a key collision skips the item
(`continue`), otherwise a `ready` hold assigned to the item is emitted
and the key recorded. -/
def genReadyHoldsAux (cfg : ScaleConfig) (pool : List UserR) (s : Streams) :
    List (Nat × ItemR) → List (String × String) →
    List HoldR × List (String × String)
  | [], ks => ([], ks)
  | (j, it) :: rest, ks =>
    let user := pool.getD (s.readyU j) dummyUser
    if (user.id, it.bibId) ∈ ks then genReadyHoldsAux cfg pool s rest ks
    else
      let r := genReadyHoldsAux cfg pool s rest ((user.id, it.bibId) :: ks)
      (⟨uuid5Str (cfg.orgCode ++ ":hold:ready:" ++ it.id), it.bibId, user.id, "ready",
        some it.id⟩ :: r.1, r.2)

/-- Stage 3.10, ready holds, from the `on_hold` items. -/
def genReadyHolds (cfg : ScaleConfig) (items : List ItemR) (pool : List UserR)
    (s : Streams) : List HoldR × List (String × String) :=
  genReadyHoldsAux cfg pool s ((items.filter (fun it => it.status = "on_hold")).enum) []

/-- `bib_ids`: every bib id except the first sentinel's. -/
def queuedBibIds (cfg : ScaleConfig) (bibs : List BibR) : List String :=
  (bibs.filter (fun b => b.id ≠ bibIdStr cfg.orgCode 1)).map BibR.id

/-- Stage 3.10, queued holds: `i = 1..cfg.queued_holds`, drawing a bib
from `bib_ids` and a borrower, still threading `active_hold_keys`. -/
def genQueuedHoldsAux (cfg : ScaleConfig) (bibIds : List String) (pool : List UserR)
    (s : Streams) : List Nat → List (String × String) → List HoldR
  | [], _ => []
  | i :: rest, ks =>
    let b := bibIds.getD (s.qBib i) ""
    let user := pool.getD (s.qU i) dummyUser
    if (user.id, b) ∈ ks then genQueuedHoldsAux cfg bibIds pool s rest ks
    else
      ⟨uuid5Str (cfg.orgCode ++ ":hold:queued:" ++ pad 7 i), b, user.id, "queued", none⟩ ::
        genQueuedHoldsAux cfg bibIds pool s rest ((user.id, b) :: ks)

/-- Stage 3.10, queued holds entry point. -/
def genQueuedHolds (cfg : ScaleConfig) (bibs : List BibR) (pool : List UserR)
    (s : Streams) (ks : List (String × String)) : List HoldR :=
  genQueuedHoldsAux cfg (queuedBibIds cfg bibs) pool s (List.range' 1 cfg.queuedHolds) ks

/-- The diagnostic of the `SCALE_OPEN_LOANS` precondition (line 1772). -/
def openLoansErrMsg (itemCount openLoans : Nat) : String :=
  "[seed-scale] SCALE_OPEN_LOANS too large; items=" ++ toString itemCount ++
    " open_loans=" ++ toString openLoans

/-- The diagnostic of the empty-borrower-pool precondition (line 1872). -/
def noBorrowersMsg : String :=
  "[seed-scale] no active borrowers; check SCALE_STUDENTS/SCALE_TEACHERS"

/-- The `if not borrowers_active: raise SystemExit(...)` check. -/
def borrowersCheck (users : List UserR) : Except String (List UserR) :=
  if borrowersActive users = [] then .error noBorrowersMsg else .ok (borrowersActive users)

/-- The tables of one generated dataset (the CSV exports the claims
talk about; `loans` is open ++ closed, `holds` is ready ++ queued). -/
structure Dataset where
  users : List UserR
  bibs : List BibR
  items : List ItemR
  loans : List LoanR
  holds : List HoldR
deriving DecidableEq

/-- The generation pipeline of `main()` in source order: users, bibs and
items are generated, the `SCALE_OPEN_LOANS` precondition is checked,
statuses are assigned, the borrower-pool precondition is checked, then
loans and holds are generated.  Both `SystemExit`s happen before any
CSV is written in the source (all `write_csv` calls come after stage
3.12), which the embedding reflects by producing the `Dataset` only in
the `ok` branch. -/
def mainGen (cfg : ScaleConfig) (s : Streams) (now : Int) : Except String Dataset :=
  let users := genUsers cfg
  let bibs := genBibs cfg
  let items0 := genItems cfg s now
  if items0.length < cfg.openLoans then
    .error (openLoansErrMsg items0.length cfg.openLoans)
  else
    let items := assignStatuses cfg items0 (s.shuffle (idxAll cfg items0))
    match borrowersCheck users with
    | .error e => .error e
    | .ok _ =>
      let pool := borrowersBulk users (loginIds cfg)
      let rh := genReadyHolds cfg items pool s
      .ok { users := users, bibs := bibs, items := items,
            loans := genOpenLoans cfg items pool s ++ genClosedLoans cfg items pool s,
            holds := rh.1 ++ genQueuedHolds cfg bibs pool s rh.2 }

/-!
## Concrete instances used by witnesses and counterexamples
-/

/-- A configuration differing from the default only in quantities
(1 bib keeps the evaluations small); org code and seed are the
defaults. -/
def cfgClock : ScaleConfig :=
  { orgCode := "demo-lms-scale", seed := 42, students := 0, teachers := 0, bibs := 1,
    maxCopiesPerBib := 3, openLoans := 0, closedLoans := 0, readyHolds := 0, queuedHolds := 0 }

/-- A fixed random stream (identical in both runs of the C1 experiment). -/
def sClock : Streams :=
  { copies := fun _ => 1, loc := fun _ => "", acqDays := fun _ => 0, shuffle := fun l => l,
    openB := fun _ => 0, closedB := fun _ => 0, closedI := fun _ => 0,
    readyU := fun _ => 0, qBib := fun _ => 0, qU := fun _ => 0 }

/-- A trivial stream: one copy per bib, identity shuffle, index-0 picks. -/
def sTriv : Streams :=
  { copies := fun _ => 1, loc := fun _ => "", acqDays := fun _ => 0, shuffle := fun l => l,
    openB := fun _ => 0, closedB := fun _ => 0, closedI := fun _ => 0,
    readyU := fun _ => 0, qBib := fun _ => 0, qU := fun _ => 0 }

/-- Fallback dataset for the `match` projections below (never reached). -/
def emptyDataset : Dataset := ⟨[], [], [], [], []⟩

/-- Small config for the C3 witness: two (sentinel) bibs, one open loan. -/
def cfgW3 : ScaleConfig :=
  { orgCode := "dl", seed := 42, students := 1, teachers := 1, bibs := 2,
    maxCopiesPerBib := 3, openLoans := 1, closedLoans := 0, readyHolds := 0, queuedHolds := 0 }

def dW3 : Dataset := match mainGen cfgW3 sTriv 0 with
  | .ok d => d
  | .error _ => emptyDataset

/-- Small config for the C4 witness: three bibs, two queued holds. -/
def cfgW4 : ScaleConfig :=
  { orgCode := "dl", seed := 42, students := 2, teachers := 1, bibs := 3,
    maxCopiesPerBib := 3, openLoans := 1, closedLoans := 0, readyHolds := 0, queuedHolds := 2 }

/-- Stream for the C4 witness: queued hold `i` picks bib index `i - 1`. -/
def sW4 : Streams :=
  { copies := fun _ => 1, loc := fun _ => "", acqDays := fun _ => 0, shuffle := fun l => l,
    openB := fun _ => 0, closedB := fun _ => 0, closedI := fun _ => 0,
    readyU := fun _ => 0, qBib := fun i => i - 1, qU := fun _ => 0 }

def dW4 : Dataset := match mainGen cfgW4 sW4 0 with
  | .ok d => d
  | .error _ => emptyDataset

/-- Config for the C5 scenario: 11 bibs with two copies each beyond the
sentinels (20 copies), two ready holds requested. -/
def cfgT5 : ScaleConfig :=
  { orgCode := "dl", seed := 42, students := 2, teachers := 1, bibs := 11,
    maxCopiesPerBib := 2, openLoans := 0, closedLoans := 0, readyHolds := 2, queuedHolds := 0 }

/-- A permutation of the non-sentinel item indexes `[2..19]` that sends
the two copies of bib 3 (indexes 2 and 3) to the ready-hold slice after
the 15 lost/repair/withdrawn slots. -/
def permT5 : List Nat := [4, 5, 6, 7, 8, 9, 10, 11, 12, 13, 14, 15, 16, 17, 18, 2, 3, 19]

/-- Stream for the C5 scenario: two copies per non-sentinel bib, the
shuffle above, and every borrower pick at index 0 (so both ready holds
draw the same borrower). -/
def sT5 : Streams :=
  { copies := fun _ => 2, loc := fun _ => "", acqDays := fun _ => 0, shuffle := fun _ => permT5,
    openB := fun _ => 0, closedB := fun _ => 0, closedI := fun _ => 0,
    readyU := fun _ => 0, qBib := fun _ => 0, qU := fun _ => 0 }

def dT5 : Dataset := match mainGen cfgT5 sT5 0 with
  | .ok d => d
  | .error _ => emptyDataset

/-- Config for the C6 counterexample: two (sentinel) bibs, one open and
one closed loan; the closed loan's `rng.choice(items)` draw (index 0)
selects the available sentinel copy. -/
def cfgW6 : ScaleConfig :=
  { orgCode := "dl", seed := 42, students := 1, teachers := 1, bibs := 2,
    maxCopiesPerBib := 3, openLoans := 1, closedLoans := 1, readyHolds := 0, queuedHolds := 0 }

def dW6 : Dataset := match mainGen cfgW6 sTriv 0 with
  | .ok d => d
  | .error _ => emptyDataset

/-- Config for the C10 counterexample: no bulk students or teachers at
all, so every active borrower is a login-enabled sentinel and
`borrowers_bulk` falls back to them. -/
def cfgW10 : ScaleConfig :=
  { orgCode := "dl", seed := 42, students := 0, teachers := 0, bibs := 2,
    maxCopiesPerBib := 3, openLoans := 1, closedLoans := 0, readyHolds := 0, queuedHolds := 0 }

def dW10 : Dataset := match mainGen cfgW10 sTriv 0 with
  | .ok d => d
  | .error _ => emptyDataset

/-- Config for the C9 witness: no bibs at all but one open loan
requested, so the `SCALE_OPEN_LOANS` precondition fires. -/
def cfgW9 : ScaleConfig :=
  { orgCode := "dl", seed := 42, students := 1, teachers := 1, bibs := 0,
    maxCopiesPerBib := 3, openLoans := 1, closedLoans := 0, readyHolds := 0, queuedHolds := 0 }

/-!
### The disputed claims, as stated

The next definitions state claims C5, C6 and C10 exactly as the
specification phrases them, over the embedded pipeline; their
counterexample theorems refute them and separate theorems prove the
amended versions.
-/

/-- C5 as stated: in every generated dataset (a successful run whose
shuffle is a permutation and whose item ids are pairwise distinct),
every `on_hold` copy has exactly one `ready` hold assigned to it, and
every `ready` hold's assigned copy is an `on_hold` copy. -/
def readyHoldsExactClaim : Prop :=
  ∀ (cfg : ScaleConfig) (s : Streams) (now : Int) (d : Dataset),
    mainGen cfg s now = .ok d →
    (s.shuffle (idxAll cfg (genItems cfg s now))).Perm (idxAll cfg (genItems cfg s now)) →
    (d.items.map ItemR.id).Nodup →
    (∀ it ∈ d.items, it.status = "on_hold" →
      (d.holds.filter (fun h => decide (h.status = "ready" ∧
        h.assignedItemId = some it.id))).length = 1) ∧
    (∀ h ∈ d.holds, h.status = "ready" → ∀ x : String, h.assignedItemId = some x →
      ∃ it ∈ d.items, it.id = x ∧ it.status = "on_hold")

/-- C6 as stated: under a configuration with at least two catalog
records, the first record's copy (item 0) ends `available`, the second
record's copy (item 1) ends `checked_out`, and neither sentinel copy is
referenced by any loan or assigned to any hold beyond the forced open
loan on item 1 (in particular closed loans never draw a sentinel
copy). -/
def sentinelStabilityClaim : Prop :=
  ∀ (cfg : ScaleConfig) (s : Streams) (now : Int) (d : Dataset),
    2 ≤ cfg.bibs →
    mainGen cfg s now = .ok d →
    (s.shuffle (idxAll cfg (genItems cfg s now))).Perm (idxAll cfg (genItems cfg s now)) →
    (d.items.map ItemR.id).Nodup →
    (d.items.getD 0 dummyItem).status = "available" ∧
    (d.items.getD 1 dummyItem).status = "checked_out" ∧
    (∀ l ∈ d.loans, l.itemId ≠ (d.items.getD 0 dummyItem).id) ∧
    (∀ l ∈ d.loans, l.status = "closed" → l.itemId ≠ (d.items.getD 1 dummyItem).id) ∧
    (∀ h ∈ d.holds, ∀ x : String, h.assignedItemId = some x →
      x ≠ (d.items.getD 0 dummyItem).id ∧ x ≠ (d.items.getD 1 dummyItem).id)

/-- The integrity-violation predicate of claim C8, following the
claim's wording (spec side of the refinement, to be compared with the
source-side `assertVariantMapping`): a mapping key that is not a known
preferred label, an empty (stripped) variant label, a variant label
equal to its own or any other preferred label, or a variant label
claimed by two different preferred labels. -/
def variantViolation (preferred : List String)
    (mapping : List (String × List String)) : Prop :=
  (∃ kv ∈ mapping, kv.1 ∉ preferred) ∨
  (∃ kv ∈ mapping, ∃ v ∈ kv.2, pyStrip v = "") ∨
  (∃ kv ∈ mapping, ∃ v ∈ kv.2, pyStrip v ∈ preferred) ∨
  (∃ kv ∈ mapping, ∃ kv2 ∈ mapping, kv.1 ≠ kv2.1 ∧
    ∃ v ∈ kv.2, ∃ v2 ∈ kv2.2, pyStrip v = pyStrip v2)

/-- C10 as stated: in every generated dataset (successful run, all
`rng.choice` indexes in range), no loan and no hold carries a
login-enabled sentinel borrower. -/
def borrowerExclusionClaim : Prop :=
  ∀ (cfg : ScaleConfig) (s : Streams) (now : Int) (d : Dataset),
    mainGen cfg s now = .ok d →
    (∀ j, s.openB j < (borrowersBulk (genUsers cfg) (loginIds cfg)).length) →
    (∀ j, s.closedB j < (borrowersBulk (genUsers cfg) (loginIds cfg)).length) →
    (∀ j, s.readyU j < (borrowersBulk (genUsers cfg) (loginIds cfg)).length) →
    (∀ j, s.qU j < (borrowersBulk (genUsers cfg) (loginIds cfg)).length) →
    (∀ l ∈ d.loans, l.userId ∉ loginIds cfg) ∧ (∀ h ∈ d.holds, h.userId ∉ loginIds cfg)

end SeedScale

namespace SeedScale

/-!
## Theorems

Each claim of the specification gets exactly one theorem below (with a
witness where the theorem carries hypotheses); shared helper lemmas
come first.
-/

theorem genItemsAux_map_id (cfg : ScaleConfig) (s : Streams) (now : Int) :
    ∀ b i k, (genItemsAux cfg s now b i k).map ItemR.id =
      (List.range (genItemsAux cfg s now b i k).length).map
        (fun j => itemIdStr cfg.orgCode (k + j)) := by
  intro b
  induction b with
  | zero => intro i k; simp [genItemsAux]
  | succ b ih =>
    intro i k
    show ((List.range (nCopiesFor cfg s i)).map (fun c => mkItem cfg s now i (k + c)) ++
        genItemsAux cfg s now b (i + 1) (k + nCopiesFor cfg s i)).map ItemR.id =
      (List.range ((List.range (nCopiesFor cfg s i)).map (fun c => mkItem cfg s now i (k + c)) ++
        genItemsAux cfg s now b (i + 1) (k + nCopiesFor cfg s i)).length).map
        (fun j => itemIdStr cfg.orgCode (k + j))
    rw [List.map_append, List.map_map, List.length_append, List.length_map,
      List.length_range, List.range_add, List.map_append, List.map_map,
      ih (i + 1) (k + nCopiesFor cfg s i)]
    have h1 : List.map (ItemR.id ∘ fun c => mkItem cfg s now i (k + c))
        (List.range (nCopiesFor cfg s i)) =
        List.map (fun j => itemIdStr cfg.orgCode (k + j))
          (List.range (nCopiesFor cfg s i)) :=
      List.map_congr_left (fun c _ => rfl)
    have h2 : List.map ((fun j => itemIdStr cfg.orgCode (k + j)) ∘
          fun x => nCopiesFor cfg s i + x)
        (List.range (genItemsAux cfg s now b (i + 1) (k + nCopiesFor cfg s i)).length) =
        List.map (fun j => itemIdStr cfg.orgCode (k + nCopiesFor cfg s i + j))
          (List.range (genItemsAux cfg s now b (i + 1) (k + nCopiesFor cfg s i)).length) :=
      List.map_congr_left (fun j _ => by
        simp only [Function.comp_apply]; rw [← Nat.add_assoc])
    rw [h1, h2]

theorem genUsers_id_eq (cfg : ScaleConfig) :
    ∀ u ∈ genUsers cfg, u.id = userIdStr cfg.orgCode u.externalId := by
  intro u hu
  simp only [genUsers, List.mem_append, List.mem_cons, List.not_mem_nil, or_false,
    List.mem_map, List.mem_filterMap] at hu
  rcases hu with ((rfl | rfl | rfl | rfl) | ⟨i, hi, hm⟩) | ⟨i, hi, hm⟩
  · rfl
  · rfl
  · rfl
  · rfl
  · rw [← hm]
  · split at hm
    · simp at hm
    · rw [Option.some_inj] at hm
      rw [← hm]

/-- Inversion of a successful `mainGen` run: each table of the dataset
is the corresponding stage applied to the prior stages' outputs. -/
theorem mainGen_ok (cfg : ScaleConfig) (s : Streams) (now : Int) (d : Dataset)
    (h : mainGen cfg s now = .ok d) :
    d.users = genUsers cfg ∧ d.bibs = genBibs cfg ∧
    d.items = assignStatuses cfg (genItems cfg s now)
      (s.shuffle (idxAll cfg (genItems cfg s now))) ∧
    d.loans = genOpenLoans cfg d.items (borrowersBulk (genUsers cfg) (loginIds cfg)) s ++
      genClosedLoans cfg d.items (borrowersBulk (genUsers cfg) (loginIds cfg)) s ∧
    d.holds = (genReadyHolds cfg d.items (borrowersBulk (genUsers cfg) (loginIds cfg)) s).1 ++
      genQueuedHolds cfg (genBibs cfg) (borrowersBulk (genUsers cfg) (loginIds cfg)) s
        (genReadyHolds cfg d.items (borrowersBulk (genUsers cfg) (loginIds cfg)) s).2 := by
  simp only [mainGen] at h
  split at h
  · exact absurd h (by simp)
  · unfold borrowersCheck at h
    split at h
    · exact absurd h (by simp)
    · rw [Except.ok.injEq] at h
      subst h
      exact ⟨rfl, rfl, rfl, rfl, rfl⟩

theorem genReadyHoldsAux_spec (cfg : ScaleConfig) (pool : List UserR) (s : Streams) :
    ∀ (l : List (Nat × ItemR)) (ks : List (String × String)),
      ((genReadyHoldsAux cfg pool s l ks).1.map holdKey).Nodup ∧
      (∀ k ∈ (genReadyHoldsAux cfg pool s l ks).1.map holdKey, k ∉ ks) ∧
      (∀ k ∈ ks, k ∈ (genReadyHoldsAux cfg pool s l ks).2) ∧
      (∀ k ∈ (genReadyHoldsAux cfg pool s l ks).1.map holdKey,
        k ∈ (genReadyHoldsAux cfg pool s l ks).2) := by
  intro l
  induction l with
  | nil => intro ks; simp [genReadyHoldsAux]
  | cons p rest ih =>
    intro ks
    obtain ⟨j, it⟩ := p
    by_cases hk : ((pool.getD (s.readyU j) dummyUser).id, it.bibId) ∈ ks
    · have he : genReadyHoldsAux cfg pool s ((j, it) :: rest) ks =
          genReadyHoldsAux cfg pool s rest ks := by
        simp only [genReadyHoldsAux, if_pos hk]
      rw [he]
      exact ih ks
    · have he : genReadyHoldsAux cfg pool s ((j, it) :: rest) ks =
          (⟨uuid5Str (cfg.orgCode ++ ":hold:ready:" ++ it.id), it.bibId,
            (pool.getD (s.readyU j) dummyUser).id, "ready", some it.id⟩ ::
            (genReadyHoldsAux cfg pool s rest
              (((pool.getD (s.readyU j) dummyUser).id, it.bibId) :: ks)).1,
           (genReadyHoldsAux cfg pool s rest
              (((pool.getD (s.readyU j) dummyUser).id, it.bibId) :: ks)).2) := by
        simp only [genReadyHoldsAux, if_neg hk]
      rw [he]
      obtain ⟨ihn, ihnot, ihsub, ihmem⟩ :=
        ih (((pool.getD (s.readyU j) dummyUser).id, it.bibId) :: ks)
      refine ⟨?_, ?_, ?_, ?_⟩
      · simp only [List.map_cons, List.nodup_cons]
        refine ⟨?_, ihn⟩
        intro hmem
        exact (ihnot _ hmem) (List.mem_cons_self _ _)
      · intro k hkm
        simp only [List.map_cons, List.mem_cons] at hkm
        rcases hkm with rfl | hkm
        · exact hk
        · intro hks
          exact (ihnot k hkm) (List.mem_cons_of_mem _ hks)
      · intro k hks
        exact ihsub k (List.mem_cons_of_mem _ hks)
      · intro k hkm
        simp only [List.map_cons, List.mem_cons] at hkm
        rcases hkm with rfl | hkm
        · exact ihsub _ (List.mem_cons_self _ _)
        · exact ihmem k hkm

theorem genQueuedHoldsAux_spec (cfg : ScaleConfig) (bibIds : List String)
    (pool : List UserR) (s : Streams) :
    ∀ (idxs : List Nat) (ks : List (String × String)),
      ((genQueuedHoldsAux cfg bibIds pool s idxs ks).map holdKey).Nodup ∧
      (∀ k ∈ (genQueuedHoldsAux cfg bibIds pool s idxs ks).map holdKey, k ∉ ks) := by
  intro idxs
  induction idxs with
  | nil => intro ks; simp [genQueuedHoldsAux]
  | cons i rest ih =>
    intro ks
    by_cases hk : ((pool.getD (s.qU i) dummyUser).id, bibIds.getD (s.qBib i) "") ∈ ks
    · have he : genQueuedHoldsAux cfg bibIds pool s (i :: rest) ks =
          genQueuedHoldsAux cfg bibIds pool s rest ks := by
        simp only [genQueuedHoldsAux, if_pos hk]
      rw [he]
      exact ih ks
    · have he : genQueuedHoldsAux cfg bibIds pool s (i :: rest) ks =
          ⟨uuid5Str (cfg.orgCode ++ ":hold:queued:" ++ pad 7 i), bibIds.getD (s.qBib i) "",
            (pool.getD (s.qU i) dummyUser).id, "queued", none⟩ ::
            genQueuedHoldsAux cfg bibIds pool s rest
              (((pool.getD (s.qU i) dummyUser).id, bibIds.getD (s.qBib i) "") :: ks) := by
        simp only [genQueuedHoldsAux, if_neg hk]
      rw [he]
      obtain ⟨ihn, ihnot⟩ :=
        ih (((pool.getD (s.qU i) dummyUser).id, bibIds.getD (s.qBib i) "") :: ks)
      refine ⟨?_, ?_⟩
      · simp only [List.map_cons, List.nodup_cons]
        refine ⟨?_, ihn⟩
        intro hmem
        exact (ihnot _ hmem) (List.mem_cons_self _ _)
      · intro k hkm
        simp only [List.map_cons, List.mem_cons] at hkm
        rcases hkm with rfl | hkm
        · exact hk
        · intro hks
          exact (ihnot k hkm) (List.mem_cons_of_mem _ hks)

/-- The hold keys of a generated dataset are pairwise distinct. -/
theorem holds_keys_nodup (cfg : ScaleConfig) (s : Streams) (now : Int) (d : Dataset)
    (h : mainGen cfg s now = .ok d) : (d.holds.map holdKey).Nodup := by
  obtain ⟨-, -, -, -, hh⟩ := mainGen_ok cfg s now d h
  rw [hh, List.map_append, List.nodup_append]
  set pool := borrowersBulk (genUsers cfg) (loginIds cfg)
  obtain ⟨rn, -, -, rmem⟩ := genReadyHoldsAux_spec cfg pool s
    ((d.items.filter (fun it => it.status = "on_hold")).enum) []
  obtain ⟨qn, qnot⟩ := genQueuedHoldsAux_spec cfg (queuedBibIds cfg (genBibs cfg)) pool s
    (List.range' 1 cfg.queuedHolds) ((genReadyHolds cfg d.items pool s).2)
  refine ⟨rn, qn, ?_⟩
  intro k hkr hkq
  exact (qnot k hkq) (rmem k hkr)

theorem countP_eq_key_le_one {β : Type} [DecidableEq β] :
    ∀ (l : List β), l.Nodup → ∀ b : β, l.countP (fun x => decide (x = b)) ≤ 1 := by
  intro l hl
  induction l with
  | nil => intro b; simp
  | cons x xs ih =>
    intro b
    obtain ⟨hx, hxs⟩ := List.nodup_cons.mp hl
    rw [List.countP_cons]
    by_cases hxb : x = b
    · subst hxb
      have h0 : xs.countP (fun y => decide (y = x)) = 0 := by
        rw [List.countP_eq_zero]
        intro y hy
        simp only [decide_eq_true_eq]
        intro he
        subst he
        exact hx hy
      simp [h0]
    · simp only [hxb, decide_False, if_neg, Nat.add_zero, decide_eq_true_eq, if_false]
      exact ih hxs b

/-- Bounding a filter by a key function: if the keys of `l` are pairwise
distinct and the predicate forces a fixed key, at most one element
matches. -/
theorem length_filter_le_one_of_key {α β : Type} [DecidableEq β] (key : α → β)
    (l : List α) (hn : (l.map key).Nodup) (p : α → Bool) (b : β)
    (hp : ∀ a ∈ l, p a = true → key a = b) : (l.filter p).length ≤ 1 := by
  rw [← List.countP_eq_length_filter]
  calc l.countP p ≤ l.countP (fun a => decide (key a = b)) := by
        apply List.countP_mono_left
        intro a ha hpa
        simp only [decide_eq_true_eq]
        exact hp a ha hpa
    _ = (l.map key).countP (fun x => decide (x = b)) := by
        rw [List.countP_map]
        rfl
    _ ≤ 1 := countP_eq_key_le_one (l.map key) hn b

/-- The item ids referenced by the open loans are exactly the ids of the
`checked_out` items, in order (stage 3.9 builds one loan per such item). -/
theorem genOpenLoans_map_itemId (cfg : ScaleConfig) (items : List ItemR)
    (pool : List UserR) (s : Streams) :
    (genOpenLoans cfg items pool s).map LoanR.itemId =
      (items.filter (fun it => it.status = "checked_out")).map ItemR.id := by
  unfold genOpenLoans
  rw [List.map_map]
  have h1 : (LoanR.itemId ∘ fun p : Nat × ItemR =>
      ({ id := uuid5Str (cfg.orgCode ++ ":loan:open:" ++ p.2.id), itemId := p.2.id,
         userId := (pool.getD (s.openB p.1) dummyUser).id, status := "open" } : LoanR)) =
      (ItemR.id ∘ Prod.snd) := rfl
  rw [h1, ← List.map_map, List.enum_map_snd]

theorem genOpenLoans_mem_spec (cfg : ScaleConfig) (items : List ItemR) (pool : List UserR)
    (s : Streams) : ∀ l ∈ genOpenLoans cfg items pool s,
      l.status = "open" ∧ ∃ it ∈ items, it.status = "checked_out" ∧ l.itemId = it.id ∧
        ∃ j : Nat, l.userId = (pool.getD (s.openB j) dummyUser).id := by
  intro l hl
  unfold genOpenLoans at hl
  rw [List.mem_map] at hl
  obtain ⟨p, hp, hl⟩ := hl
  have hmem : p.2 ∈ items.filter (fun it => it.status = "checked_out") :=
    List.snd_mem_of_mem_enum hp
  rw [List.mem_filter] at hmem
  refine ⟨by rw [← hl], p.2, hmem.1, by simpa using hmem.2, by rw [← hl], p.1, by rw [← hl]⟩

theorem genClosedLoans_mem (cfg : ScaleConfig) (items : List ItemR) (pool : List UserR)
    (s : Streams) : ∀ l ∈ genClosedLoans cfg items pool s,
      l.status = "closed" ∧ ∃ i : Nat,
        l.itemId = (items.getD (s.closedI i) dummyItem).id ∧
        l.userId = (pool.getD (s.closedB i) dummyUser).id := by
  intro l hl
  unfold genClosedLoans at hl
  rw [List.mem_map] at hl
  obtain ⟨i, _, hl⟩ := hl
  exact ⟨by rw [← hl], i, by rw [← hl], by rw [← hl]⟩

/-- If the keys of `l` are pairwise distinct, the number of elements
sharing `a`'s key and satisfying `p` is 1 or 0 according to `p a`. -/
theorem countP_unique_key {α β : Type} [DecidableEq β] (key : α → β) (p : α → Bool) :
    ∀ l : List α, (l.map key).Nodup → ∀ a ∈ l,
      l.countP (fun x => p x && decide (key x = key a)) = if p a then 1 else 0 := by
  intro l
  induction l with
  | nil => intro _ a ha; exact absurd ha (List.not_mem_nil a)
  | cons x xs ih =>
    intro hn a ha
    rw [List.map_cons, List.nodup_cons] at hn
    obtain ⟨hx, hxs⟩ := hn
    rw [List.countP_cons]
    rcases List.mem_cons.mp ha with rfl | ha
    · have h0 : xs.countP (fun y => p y && decide (key y = key a)) = 0 := by
        rw [List.countP_eq_zero]
        intro y hy
        simp only [Bool.and_eq_true, decide_eq_true_eq, not_and]
        intro _ he
        exact hx (he ▸ List.mem_map_of_mem key hy)
      rw [h0]
      simp
    · have hne : key x ≠ key a := by
        intro he
        exact hx (he ▸ List.mem_map_of_mem key ha)
      simp only [hne, decide_False, Bool.and_false, if_false, Nat.add_zero]
      exact ih hxs a ha

/-- C3.  In every generated dataset (with pairwise-distinct item ids), a
copy has status `checked_out` iff exactly one loan with status `open`
references it, and every open loan references a `checked_out` copy (so
no copy carries more than one open loan). -/
theorem C3_checked_out_iff_unique_open_loan :
    ∀ (cfg : ScaleConfig) (s : Streams) (now : Int) (d : Dataset),
      mainGen cfg s now = .ok d →
      (d.items.map ItemR.id).Nodup →
      (∀ it ∈ d.items,
        (it.status = "checked_out" ↔
          (d.loans.filter (fun l => decide (l.status = "open" ∧
            l.itemId = it.id))).length = 1)) ∧
      (∀ l ∈ d.loans, l.status = "open" →
        ∃ it ∈ d.items, it.id = l.itemId ∧ it.status = "checked_out") := by
  intro cfg s now d h hnd
  obtain ⟨-, -, -, hl, -⟩ := mainGen_ok cfg s now d h
  constructor
  · intro it hit
    rw [hl, ← List.countP_eq_length_filter, List.countP_append]
    have hclosed : (genClosedLoans cfg d.items
        (borrowersBulk (genUsers cfg) (loginIds cfg)) s).countP
        (fun l => decide (l.status = "open" ∧ l.itemId = it.id)) = 0 := by
      rw [List.countP_eq_zero]
      intro l hlmem
      obtain ⟨hst, -⟩ := genClosedLoans_mem cfg d.items
        (borrowersBulk (genUsers cfg) (loginIds cfg)) s l hlmem
      simp [hst]
    rw [hclosed, Nat.add_zero]
    have hopen : (genOpenLoans cfg d.items
        (borrowersBulk (genUsers cfg) (loginIds cfg)) s).countP
        (fun l => decide (l.status = "open" ∧ l.itemId = it.id)) =
        (genOpenLoans cfg d.items
          (borrowersBulk (genUsers cfg) (loginIds cfg)) s).countP
          (fun l => decide (l.itemId = it.id)) := by
      apply List.countP_congr
      intro l hlmem
      obtain ⟨hst, -⟩ := genOpenLoans_mem_spec cfg d.items
        (borrowersBulk (genUsers cfg) (loginIds cfg)) s l hlmem
      simp [hst]
    rw [hopen]
    have hmap : (genOpenLoans cfg d.items
        (borrowersBulk (genUsers cfg) (loginIds cfg)) s).countP
        (fun l => decide (l.itemId = it.id)) =
        ((genOpenLoans cfg d.items
          (borrowersBulk (genUsers cfg) (loginIds cfg)) s).map LoanR.itemId).countP
          (fun y => decide (y = it.id)) := by
      rw [List.countP_map]; rfl
    rw [hmap, genOpenLoans_map_itemId]
    have hmap2 : ((d.items.filter (fun x => x.status = "checked_out")).map ItemR.id).countP
        (fun y => decide (y = it.id)) =
        (d.items.filter (fun x => x.status = "checked_out")).countP
          (fun x => decide (x.id = it.id)) := by
      rw [List.countP_map]; rfl
    rw [hmap2, List.countP_filter]
    have hkey := countP_unique_key ItemR.id
      (fun x => decide (x.status = "checked_out")) d.items hnd it hit
    have hcomm : d.items.countP
        (fun x => decide (x.id = it.id) && decide (x.status = "checked_out")) =
        d.items.countP
          (fun x => decide (x.status = "checked_out") && decide (x.id = it.id)) := by
      apply List.countP_congr
      intro x _
      rw [Bool.and_comm]
    rw [hcomm, hkey]
    constructor
    · intro hst
      simp [hst]
    · intro hcount
      by_contra hst
      simp only [hst, decide_False, if_false] at hcount
      exact absurd hcount (by decide)
  · intro l hlmem hst
    rw [hl] at hlmem
    rcases List.mem_append.mp hlmem with hmem | hmem
    · obtain ⟨-, it, hitmem, hck, hid, -⟩ := genOpenLoans_mem_spec cfg d.items
        (borrowersBulk (genUsers cfg) (loginIds cfg)) s l hmem
      exact ⟨it, hitmem, hid.symm, hck⟩
    · obtain ⟨hcl, -⟩ := genClosedLoans_mem cfg d.items
        (borrowersBulk (genUsers cfg) (loginIds cfg)) s l hmem
      rw [hst] at hcl
      exact absurd hcl (by decide)

theorem getD_mem_of_lt {α : Type} (l : List α) (j : Nat) (d : α) (h : j < l.length) :
    l.getD j d ∈ l := by
  rw [List.getD_eq_getElem _ _ h]
  exact List.getElem_mem h

set_option maxRecDepth 100000 in
set_option maxHeartbeats 4000000 in
/-- Witness for C3 at a concrete run (two sentinel copies, one open
loan): the forced `checked_out` copy satisfies the biconditional. -/
theorem C3_witness :
    (dW3.items.getD 1 dummyItem).status = "checked_out" ↔
      (dW3.loans.filter (fun l => decide (l.status = "open" ∧
        l.itemId = (dW3.items.getD 1 dummyItem).id))).length = 1 :=
  (C3_checked_out_iff_unique_open_loan cfgW3 sTriv 0 dW3 rfl (by decide)).1
    (dW3.items.getD 1 dummyItem) (getD_mem_of_lt _ 1 dummyItem (by decide))

/-- C4.  In every generated dataset, each (person, catalog record) pair
has at most one hold with status in queued/ready (every generated hold
is queued or ready, and their `(user_id, bib_id)` keys are pairwise
distinct by the `active_hold_keys` threading). -/
theorem C4_at_most_one_active_hold_per_pair :
    ∀ (cfg : ScaleConfig) (s : Streams) (now : Int) (d : Dataset),
      mainGen cfg s now = .ok d → ∀ u b : String,
      (d.holds.filter (fun h => decide ((h.status = "queued" ∨ h.status = "ready") ∧
        h.userId = u ∧ h.bibId = b))).length ≤ 1 := by
  intro cfg s now d h u b
  apply length_filter_le_one_of_key holdKey d.holds (holds_keys_nodup cfg s now d h) _ (u, b)
  intro a _ hpa
  have hp := of_decide_eq_true hpa
  obtain ⟨-, hu, hb⟩ := hp
  rw [holdKey, hu, hb]

set_option maxRecDepth 100000 in
set_option maxHeartbeats 4000000 in
/-- Witness for C4 at a concrete run with two queued holds: the bulk
student holding bib 2 holds it at most once. -/
theorem C4_witness :
    (dW4.holds.filter (fun h => decide ((h.status = "queued" ∨ h.status = "ready") ∧
      h.userId = userIdStr "dl" "S1130001" ∧ h.bibId = bibIdStr "dl" 2))).length ≤ 1 :=
  C4_at_most_one_active_hold_per_pair cfgW4 sW4 0 dW4 rfl
    (userIdStr "dl" "S1130001") (bibIdStr "dl" 2)

theorem genReadyHoldsAux_mem (cfg : ScaleConfig) (pool : List UserR) (s : Streams) :
    ∀ (l : List (Nat × ItemR)) (ks : List (String × String)),
      ∀ h ∈ (genReadyHoldsAux cfg pool s l ks).1,
        h.status = "ready" ∧ ∃ p ∈ l, h.assignedItemId = some p.2.id ∧
          h.bibId = p.2.bibId ∧ h.userId = (pool.getD (s.readyU p.1) dummyUser).id := by
  intro l
  induction l with
  | nil => intro ks h hh; simp [genReadyHoldsAux] at hh
  | cons p rest ih =>
    intro ks h hh
    obtain ⟨j, it⟩ := p
    by_cases hk : ((pool.getD (s.readyU j) dummyUser).id, it.bibId) ∈ ks
    · rw [show genReadyHoldsAux cfg pool s ((j, it) :: rest) ks =
          genReadyHoldsAux cfg pool s rest ks by
        simp only [genReadyHoldsAux, if_pos hk]] at hh
      obtain ⟨h1, q, hq, h2⟩ := ih ks h hh
      exact ⟨h1, q, List.mem_cons_of_mem _ hq, h2⟩
    · rw [show genReadyHoldsAux cfg pool s ((j, it) :: rest) ks =
          (⟨uuid5Str (cfg.orgCode ++ ":hold:ready:" ++ it.id), it.bibId,
            (pool.getD (s.readyU j) dummyUser).id, "ready", some it.id⟩ ::
            (genReadyHoldsAux cfg pool s rest
              (((pool.getD (s.readyU j) dummyUser).id, it.bibId) :: ks)).1,
           (genReadyHoldsAux cfg pool s rest
              (((pool.getD (s.readyU j) dummyUser).id, it.bibId) :: ks)).2) by
        simp only [genReadyHoldsAux, if_neg hk]] at hh
      rcases List.mem_cons.mp hh with rfl | hh
      · exact ⟨rfl, (j, it), List.mem_cons_self _ _, rfl, rfl, rfl⟩
      · obtain ⟨h1, q, hq, h2⟩ :=
          ih (((pool.getD (s.readyU j) dummyUser).id, it.bibId) :: ks) h hh
        exact ⟨h1, q, List.mem_cons_of_mem _ hq, h2⟩

theorem genReadyHoldsAux_assigned_sublist (cfg : ScaleConfig) (pool : List UserR)
    (s : Streams) : ∀ (l : List (Nat × ItemR)) (ks : List (String × String)),
      ((genReadyHoldsAux cfg pool s l ks).1.map HoldR.assignedItemId).Sublist
        (l.map (fun p => some p.2.id)) := by
  intro l
  induction l with
  | nil => intro ks; simp [genReadyHoldsAux]
  | cons p rest ih =>
    intro ks
    obtain ⟨j, it⟩ := p
    by_cases hk : ((pool.getD (s.readyU j) dummyUser).id, it.bibId) ∈ ks
    · rw [show genReadyHoldsAux cfg pool s ((j, it) :: rest) ks =
          genReadyHoldsAux cfg pool s rest ks by
        simp only [genReadyHoldsAux, if_pos hk]]
      exact (ih ks).cons _
    · rw [show genReadyHoldsAux cfg pool s ((j, it) :: rest) ks =
          (⟨uuid5Str (cfg.orgCode ++ ":hold:ready:" ++ it.id), it.bibId,
            (pool.getD (s.readyU j) dummyUser).id, "ready", some it.id⟩ ::
            (genReadyHoldsAux cfg pool s rest
              (((pool.getD (s.readyU j) dummyUser).id, it.bibId) :: ks)).1,
           (genReadyHoldsAux cfg pool s rest
              (((pool.getD (s.readyU j) dummyUser).id, it.bibId) :: ks)).2) by
        simp only [genReadyHoldsAux, if_neg hk]]
      simp only [List.map_cons]
      exact (ih _).cons₂ _

theorem genQueuedHoldsAux_mem (cfg : ScaleConfig) (bibIds : List String)
    (pool : List UserR) (s : Streams) :
    ∀ (idxs : List Nat) (ks : List (String × String)),
      ∀ h ∈ genQueuedHoldsAux cfg bibIds pool s idxs ks,
        h.status = "queued" ∧ h.assignedItemId = none ∧
          ∃ i ∈ idxs, h.userId = (pool.getD (s.qU i) dummyUser).id := by
  intro idxs
  induction idxs with
  | nil => intro ks h hh; simp [genQueuedHoldsAux] at hh
  | cons i rest ih =>
    intro ks h hh
    by_cases hk : ((pool.getD (s.qU i) dummyUser).id, bibIds.getD (s.qBib i) "") ∈ ks
    · rw [show genQueuedHoldsAux cfg bibIds pool s (i :: rest) ks =
          genQueuedHoldsAux cfg bibIds pool s rest ks by
        simp only [genQueuedHoldsAux, if_pos hk]] at hh
      obtain ⟨h1, h2, i2, hi2, h3⟩ := ih ks h hh
      exact ⟨h1, h2, i2, List.mem_cons_of_mem _ hi2, h3⟩
    · rw [show genQueuedHoldsAux cfg bibIds pool s (i :: rest) ks =
          ⟨uuid5Str (cfg.orgCode ++ ":hold:queued:" ++ pad 7 i), bibIds.getD (s.qBib i) "",
            (pool.getD (s.qU i) dummyUser).id, "queued", none⟩ ::
            genQueuedHoldsAux cfg bibIds pool s rest
              (((pool.getD (s.qU i) dummyUser).id, bibIds.getD (s.qBib i) "") :: ks) by
        simp only [genQueuedHoldsAux, if_neg hk]] at hh
      rcases List.mem_cons.mp hh with rfl | hh
      · exact ⟨rfl, rfl, i, List.mem_cons_self _ _, rfl⟩
      · obtain ⟨h1, h2, i2, hi2, h3⟩ := ih _ h hh
        exact ⟨h1, h2, i2, List.mem_cons_of_mem _ hi2, h3⟩

/-- The assigned copies of the ready holds of a generated dataset are
pairwise distinct (given pairwise-distinct item ids). -/
theorem readyHolds_assigned_nodup (cfg : ScaleConfig) (d : Dataset) (pool : List UserR)
    (s : Streams) (hnd : (d.items.map ItemR.id).Nodup) :
    ((genReadyHolds cfg d.items pool s).1.map HoldR.assignedItemId).Nodup := by
  have hsub := genReadyHoldsAux_assigned_sublist cfg pool s
    ((d.items.filter (fun it => it.status = "on_hold")).enum) []
  have he : ((d.items.filter (fun it => it.status = "on_hold")).enum).map
      (fun p => some p.2.id) =
      ((d.items.filter (fun it => it.status = "on_hold")).map ItemR.id).map some := by
    rw [List.map_map]
    have : ((fun p : Nat × ItemR => some p.2.id)) =
        ((some ∘ ItemR.id) ∘ Prod.snd) := rfl
    rw [this, ← List.map_map, List.enum_map_snd]
  rw [he] at hsub
  apply hsub.nodup
  apply List.Nodup.map (Option.some_injective String)
  exact ((List.filter_sublist d.items).map ItemR.id).nodup hnd

/-- C5 (amended).  In every generated dataset (with pairwise-distinct
item ids): every `on_hold` copy has AT MOST one `ready` hold assigned
to it (the source skips a ready hold when its random borrower already
holds that record, leaving the copy `on_hold` with no hold), and every
`ready` hold's assigned copy is an `on_hold` copy. -/
theorem C5_ready_holds_amended :
    ∀ (cfg : ScaleConfig) (s : Streams) (now : Int) (d : Dataset),
      mainGen cfg s now = .ok d →
      (d.items.map ItemR.id).Nodup →
      (∀ it ∈ d.items, it.status = "on_hold" →
        (d.holds.filter (fun h => decide (h.status = "ready" ∧
          h.assignedItemId = some it.id))).length ≤ 1) ∧
      (∀ h ∈ d.holds, h.status = "ready" → ∀ x : String, h.assignedItemId = some x →
        ∃ it ∈ d.items, it.id = x ∧ it.status = "on_hold") := by
  intro cfg s now d h hnd
  obtain ⟨-, -, -, -, hh⟩ := mainGen_ok cfg s now d h
  constructor
  · intro it _ _
    rw [hh, List.filter_append, List.length_append]
    have hq : (List.filter (fun h => decide (h.status = "ready" ∧
        h.assignedItemId = some it.id))
        (genQueuedHolds cfg (genBibs cfg) (borrowersBulk (genUsers cfg) (loginIds cfg)) s
          (genReadyHolds cfg d.items (borrowersBulk (genUsers cfg) (loginIds cfg)) s).2)).length
        = 0 := by
      rw [List.length_eq_zero, List.filter_eq_nil]
      intro a ha
      rw [genQueuedHolds] at ha
      obtain ⟨hst, -⟩ := genQueuedHoldsAux_mem cfg
        (queuedBibIds cfg (genBibs cfg)) (borrowersBulk (genUsers cfg) (loginIds cfg)) s
        (List.range' 1 cfg.queuedHolds)
        ((genReadyHolds cfg d.items (borrowersBulk (genUsers cfg) (loginIds cfg)) s).2) a ha
      simp [hst]
    rw [hq, Nat.add_zero]
    apply length_filter_le_one_of_key HoldR.assignedItemId _
      (readyHolds_assigned_nodup cfg d (borrowersBulk (genUsers cfg) (loginIds cfg)) s hnd)
      _ (some it.id)
    intro a _ hpa
    exact (of_decide_eq_true hpa).2
  · intro h2 hmem hst x hx
    rw [hh] at hmem
    rcases List.mem_append.mp hmem with hmem | hmem
    · rw [genReadyHolds] at hmem
      obtain ⟨-, p, hp, hassign, -⟩ := genReadyHoldsAux_mem cfg
        (borrowersBulk (genUsers cfg) (loginIds cfg)) s
        ((d.items.filter (fun it => it.status = "on_hold")).enum) [] h2 hmem
      have hpm : p.2 ∈ d.items.filter (fun it => it.status = "on_hold") :=
        List.snd_mem_of_mem_enum hp
      rw [List.mem_filter] at hpm
      rw [hx] at hassign
      refine ⟨p.2, hpm.1, ?_, by simpa using hpm.2⟩
      exact (Option.some_inj.mp hassign).symm
    · rw [genQueuedHolds] at hmem
      obtain ⟨hq, -⟩ := genQueuedHoldsAux_mem cfg
        (queuedBibIds cfg (genBibs cfg)) (borrowersBulk (genUsers cfg) (loginIds cfg)) s
        (List.range' 1 cfg.queuedHolds)
        ((genReadyHolds cfg d.items (borrowersBulk (genUsers cfg) (loginIds cfg)) s).2)
        h2 hmem
      rw [hst] at hq
      exact absurd hq (by decide)

set_option maxRecDepth 200000 in
set_option maxHeartbeats 10000000 in
/-- Counterexample to C5 as stated: in the concrete run `dT5`, both
copies of bib 3 end `on_hold` but the ready-hold loop draws the same
borrower for both, so the second copy (item index 3) has no ready hold
at all — `exactly one` fails. -/
theorem C5_counterexample : ¬ readyHoldsExactClaim := by
  intro hclaim
  have h := (hclaim cfgT5 sT5 0 dT5 rfl (by decide) (by decide)).1
    (dT5.items.getD 3 dummyItem) (getD_mem_of_lt _ 3 dummyItem (by decide)) (by decide)
  exact absurd h (by decide)

set_option maxRecDepth 200000 in
set_option maxHeartbeats 10000000 in
/-- Witness for the amended C5 at the same concrete run: the first
`on_hold` copy (item index 2) carries at most one ready hold. -/
theorem C5_amended_witness :
    (dT5.holds.filter (fun h => decide (h.status = "ready" ∧
      h.assignedItemId = some (dT5.items.getD 2 dummyItem).id))).length ≤ 1 :=
  (C5_ready_holds_amended cfgT5 sT5 0 dT5 rfl (by decide)).1
    (dT5.items.getD 2 dummyItem) (getD_mem_of_lt _ 2 dummyItem (by decide)) (by decide)

/-- With at least two bibs, the first two generated items are the single
sentinel copies of bibs 1 and 2 (barcode counters 1 and 2). -/
theorem genItems_sentinels (cfg : ScaleConfig) (s : Streams) (now : Int)
    (h2 : 2 ≤ cfg.bibs) :
    ∃ rest, genItems cfg s now =
      mkItem cfg s now 1 1 :: mkItem cfg s now 2 2 :: rest := by
  obtain ⟨b, hb⟩ : ∃ b, cfg.bibs = b + 2 := ⟨cfg.bibs - 2, by omega⟩
  refine ⟨genItemsAux cfg s now b 3 3, ?_⟩
  show genItemsAux cfg s now cfg.bibs 1 1 = _
  rw [hb]
  rfl

theorem assignStatuses_length (cfg : ScaleConfig) (items : List ItemR) (sh : List Nat) :
    (assignStatuses cfg items sh).length = items.length := by
  simp [assignStatuses]

/-- Status assignment only rewrites the `status` field. -/
theorem assignStatuses_getD_id_bibId (cfg : ScaleConfig) (items : List ItemR)
    (sh : List Nat) (i : Nat) :
    ((assignStatuses cfg items sh).getD i dummyItem).id = (items.getD i dummyItem).id ∧
    ((assignStatuses cfg items sh).getD i dummyItem).bibId =
      (items.getD i dummyItem).bibId := by
  by_cases h : i < items.length
  · rw [List.getD_eq_getElem _ _ (by rw [assignStatuses_length]; exact h),
      List.getD_eq_getElem _ _ h]
    simp only [assignStatuses, List.getElem_mapIdx]
    constructor <;> (split <;> (repeat' split) <;> rfl)
  · rw [List.getD_eq_getElem?_getD, List.getD_eq_getElem?_getD,
      List.getElem?_eq_none (by rw [assignStatuses_length]; omega),
      List.getElem?_eq_none (by omega)]
    exact ⟨rfl, rfl⟩

/-- An index outside the shuffled list and the forced set keeps its item
unchanged. -/
theorem assignStatuses_getD_keep (cfg : ScaleConfig) (items : List ItemR)
    (sh : List Nat) (i : Nat) (h : i < items.length)
    (hsh : i ∉ sh) (hf : i ∉ forcedCheckedOut cfg) :
    (assignStatuses cfg items sh).getD i dummyItem = items.getD i dummyItem := by
  rw [List.getD_eq_getElem _ _ (by rw [assignStatuses_length]; exact h),
    List.getD_eq_getElem _ _ h]
  simp only [assignStatuses, List.getElem_mapIdx]
  rw [if_neg hf,
    if_neg (fun hm => hsh (List.mem_of_mem_take hm)),
    if_neg (fun hm => hsh (List.mem_of_mem_drop (List.mem_of_mem_take hm))),
    if_neg (fun hm => hsh (List.mem_of_mem_drop (List.mem_of_mem_take hm))),
    if_neg (fun hm => hsh (List.mem_of_mem_filter (List.mem_of_mem_take hm))),
    if_neg (fun hm => hsh (List.mem_of_mem_filter (List.mem_of_mem_filter
      (List.mem_of_mem_take hm))))]

/-- A forced index (the unavailable sentinel) ends `checked_out`. -/
theorem assignStatuses_getD_forced (cfg : ScaleConfig) (items : List ItemR)
    (sh : List Nat) (i : Nat) (h : i < items.length)
    (hf : i ∈ forcedCheckedOut cfg) :
    ((assignStatuses cfg items sh).getD i dummyItem).status = "checked_out" := by
  rw [List.getD_eq_getElem _ _ (by rw [assignStatuses_length]; exact h)]
  simp only [assignStatuses, List.getElem_mapIdx]
  rw [if_pos hf]

/-- Members of a non-degenerate `borrowers_bulk` pool are non-login
borrowers. -/
theorem borrowersBulk_mem_not_login (users : List UserR) (logins : List String)
    (hbulk : (borrowersActive users).filter (fun u => u.id ∉ logins) ≠ []) :
    ∀ u ∈ borrowersBulk users logins, u.id ∉ logins := by
  intro u hu
  rw [borrowersBulk, if_neg hbulk] at hu
  exact of_decide_eq_true (List.mem_filter.mp hu).2

/-- With pairwise-distinct keys, equal keys force equal elements. -/
theorem eq_of_mem_of_nodup_key {α β : Type} (key : α → β) :
    ∀ l : List α, (l.map key).Nodup → ∀ a ∈ l, ∀ b ∈ l, key a = key b → a = b := by
  intro l
  induction l with
  | nil => intro _ a ha; exact absurd ha (List.not_mem_nil a)
  | cons x xs ih =>
    intro hn a ha b hb he
    rw [List.map_cons, List.nodup_cons] at hn
    obtain ⟨hx, hxs⟩ := hn
    rcases List.mem_cons.mp ha with ha1 | ha1 <;> rcases List.mem_cons.mp hb with hb1 | hb1
    · rw [ha1, hb1]
    · rw [ha1] at he
      exact absurd (by rw [he]; exact List.mem_map_of_mem key hb1) hx
    · rw [hb1] at he
      exact absurd (by rw [← he]; exact List.mem_map_of_mem key ha1) hx
    · exact ih hxs a ha1 b hb1 he

/-- Any assigned copy of any generated hold is an `on_hold` copy of the
dataset (queued holds assign none; ready holds assign exactly the
`on_hold` items they were derived from). -/
theorem holds_assigned_on_hold (cfg : ScaleConfig) (s : Streams) (now : Int)
    (d : Dataset) (h : mainGen cfg s now = .ok d) :
    ∀ h2 ∈ d.holds, ∀ x : String, h2.assignedItemId = some x →
      ∃ it ∈ d.items, it.id = x ∧ it.status = "on_hold" := by
  obtain ⟨-, -, -, -, hh⟩ := mainGen_ok cfg s now d h
  intro h2 hmem x hx
  rw [hh] at hmem
  rcases List.mem_append.mp hmem with hmem | hmem
  · rw [genReadyHolds] at hmem
    obtain ⟨-, p, hp, hassign, -⟩ := genReadyHoldsAux_mem cfg
      (borrowersBulk (genUsers cfg) (loginIds cfg)) s
      ((d.items.filter (fun it => it.status = "on_hold")).enum) [] h2 hmem
    have hpm : p.2 ∈ d.items.filter (fun it => it.status = "on_hold") :=
      List.snd_mem_of_mem_enum hp
    rw [List.mem_filter] at hpm
    rw [hx] at hassign
    exact ⟨p.2, hpm.1, (Option.some_inj.mp hassign).symm, by simpa using hpm.2⟩
  · rw [genQueuedHolds] at hmem
    obtain ⟨-, hnone, -⟩ := genQueuedHoldsAux_mem cfg
      (queuedBibIds cfg (genBibs cfg)) (borrowersBulk (genUsers cfg) (loginIds cfg)) s
      (List.range' 1 cfg.queuedHolds)
      ((genReadyHolds cfg d.items (borrowersBulk (genUsers cfg) (loginIds cfg)) s).2)
      h2 hmem
    rw [hx] at hnone
    exact absurd hnone (by simp)

/-- C6 (amended).  With at least two catalog records, in every generated
dataset (shuffle a permutation, item ids pairwise distinct): the first
record's sole copy (item 0, pinned to bib 1) ends `available`, the
second record's sole copy (item 1, pinned to bib 2) ends `checked_out`,
no open loan references the available sentinel, and no hold assigns
either sentinel copy.  (Unlike the claim as stated, closed historical
loans draw `rng.choice(items)` over ALL copies and so may reference the
sentinel copies.) -/
theorem C6_sentinel_stability_amended :
    ∀ (cfg : ScaleConfig) (s : Streams) (now : Int) (d : Dataset),
      2 ≤ cfg.bibs →
      mainGen cfg s now = .ok d →
      (s.shuffle (idxAll cfg (genItems cfg s now))).Perm (idxAll cfg (genItems cfg s now)) →
      (d.items.map ItemR.id).Nodup →
      (d.items.getD 0 dummyItem).status = "available" ∧
      (d.items.getD 1 dummyItem).status = "checked_out" ∧
      (d.items.getD 0 dummyItem).bibId = bibIdStr cfg.orgCode 1 ∧
      (d.items.getD 1 dummyItem).bibId = bibIdStr cfg.orgCode 2 ∧
      (∀ l ∈ d.loans, l.status = "open" → l.itemId ≠ (d.items.getD 0 dummyItem).id) ∧
      (∀ h ∈ d.holds, ∀ x : String, h.assignedItemId = some x →
        x ≠ (d.items.getD 0 dummyItem).id ∧ x ≠ (d.items.getD 1 dummyItem).id) := by
  intro cfg s now d h2 h hperm hnd
  obtain ⟨-, -, hitems, hloans, -⟩ := mainGen_ok cfg s now d h
  obtain ⟨rest, hsent⟩ := genItems_sentinels cfg s now h2
  have hlen : 2 ≤ (genItems cfg s now).length := by
    rw [hsent]
    simp only [List.length_cons]
    omega
  have h0s : (0 : Nat) ∈ sentinelIdxs cfg := by
    rw [sentinelIdxs, if_pos (by omega : 1 ≤ cfg.bibs)]
    exact List.mem_append_left _ (List.mem_singleton.mpr rfl)
  have h1s : (1 : Nat) ∈ sentinelIdxs cfg := by
    rw [sentinelIdxs, if_pos h2]
    exact List.mem_append_right _ (List.mem_singleton.mpr rfl)
  have hnotsh : ∀ i : Nat, i ∈ sentinelIdxs cfg →
      i ∉ s.shuffle (idxAll cfg (genItems cfg s now)) := by
    intro i hi hc
    have hm := hperm.mem_iff.mp hc
    rw [idxAll, List.mem_filter] at hm
    exact absurd hi (of_decide_eq_true hm.2)
  have h0f : (0 : Nat) ∉ forcedCheckedOut cfg := by
    rw [forcedCheckedOut]
    split
    · simp
    · simp
  have h1f : (1 : Nat) ∈ forcedCheckedOut cfg := by
    rw [forcedCheckedOut, if_pos h2]
    exact List.mem_singleton.mpr rfl
  have e0 : d.items.getD 0 dummyItem = (genItems cfg s now).getD 0 dummyItem := by
    rw [hitems]
    exact assignStatuses_getD_keep cfg _ _ 0 (by omega) (hnotsh 0 h0s) h0f
  have e0v : (genItems cfg s now).getD 0 dummyItem = mkItem cfg s now 1 1 := by
    rw [hsent]; rfl
  have estat0 : (d.items.getD 0 dummyItem).status = "available" := by
    rw [e0, e0v]; rfl
  have ebib0 : (d.items.getD 0 dummyItem).bibId = bibIdStr cfg.orgCode 1 := by
    rw [e0, e0v]; rfl
  have estat1 : (d.items.getD 1 dummyItem).status = "checked_out" := by
    rw [hitems]
    exact assignStatuses_getD_forced cfg _ _ 1 (by omega) h1f
  have ebib1 : (d.items.getD 1 dummyItem).bibId = bibIdStr cfg.orgCode 2 := by
    rw [hitems, (assignStatuses_getD_id_bibId cfg (genItems cfg s now)
      (s.shuffle (idxAll cfg (genItems cfg s now))) 1).2, hsent]
    rfl
  have hdlen : 2 ≤ d.items.length := by
    rw [hitems, assignStatuses_length]
    exact hlen
  have hm0 : d.items.getD 0 dummyItem ∈ d.items :=
    getD_mem_of_lt _ 0 dummyItem (by omega)
  have hm1 : d.items.getD 1 dummyItem ∈ d.items :=
    getD_mem_of_lt _ 1 dummyItem (by omega)
  refine ⟨estat0, estat1, ebib0, ebib1, ?_, ?_⟩
  · intro l hl hopen hid
    rw [hloans] at hl
    rcases List.mem_append.mp hl with hmem | hmem
    · obtain ⟨-, it, hitmem, hck, hiteq, -⟩ := genOpenLoans_mem_spec cfg d.items
        (borrowersBulk (genUsers cfg) (loginIds cfg)) s l hmem
      have : it = d.items.getD 0 dummyItem :=
        eq_of_mem_of_nodup_key ItemR.id d.items hnd it hitmem _ hm0 (by rw [← hiteq, hid])
      rw [this, estat0] at hck
      exact absurd hck (by decide)
    · obtain ⟨hcl, -⟩ := genClosedLoans_mem cfg d.items
        (borrowersBulk (genUsers cfg) (loginIds cfg)) s l hmem
      rw [hopen] at hcl
      exact absurd hcl (by decide)
  · intro hd hmem x hx
    obtain ⟨it, hitmem, hiteq, hoh⟩ := holds_assigned_on_hold cfg s now d h hd hmem x hx
    constructor
    · intro hc
      have : it = d.items.getD 0 dummyItem :=
        eq_of_mem_of_nodup_key ItemR.id d.items hnd it hitmem _ hm0 (by rw [hiteq, hc])
      rw [this, estat0] at hoh
      exact absurd hoh (by decide)
    · intro hc
      have : it = d.items.getD 1 dummyItem :=
        eq_of_mem_of_nodup_key ItemR.id d.items hnd it hitmem _ hm1 (by rw [hiteq, hc])
      rw [this, estat1] at hoh
      exact absurd hoh (by decide)

set_option maxRecDepth 100000 in
set_option maxHeartbeats 4000000 in
/-- Counterexample to C6 as stated: in the concrete run `dW6`, the
closed historical loan's `rng.choice(items)` draw selects the available
sentinel copy (item 0), so a random loan allocation does reference a
sentinel copy beyond the forced assignments. -/
theorem C6_counterexample : ¬ sentinelStabilityClaim := by
  intro hclaim
  obtain ⟨-, -, hno, -, -⟩ := hclaim cfgW6 sTriv 0 dW6 (by decide) rfl
    (List.Perm.refl _) (by decide)
  have hmem : dW6.loans.getD 1 dummyLoan ∈ dW6.loans :=
    getD_mem_of_lt _ 1 dummyLoan (by decide)
  exact hno (dW6.loans.getD 1 dummyLoan) hmem (by decide)

set_option maxRecDepth 100000 in
set_option maxHeartbeats 4000000 in
/-- Witness for the amended C6 at the concrete run `dW6`: both sentinel
statuses are as specified and the open loan avoids the available
sentinel. -/
theorem C6_amended_witness :
    (dW6.items.getD 0 dummyItem).status = "available" ∧
    (dW6.items.getD 1 dummyItem).status = "checked_out" :=
  (fun c => ⟨c.1, c.2.1⟩)
    (C6_sentinel_stability_amended cfgW6 sTriv 0 dW6 (by decide) rfl
      (List.Perm.refl _) (by decide))

/-- C10 (amended).  Whenever at least one active borrower is not
login-enabled, `borrowers_bulk` is exactly the non-login active
borrowers and every loan and hold borrower avoids the login sentinels;
when every active borrower is login-enabled the source falls back to
the full active pool (see the counterexample). -/
theorem C10_borrower_exclusion_amended :
    ∀ (cfg : ScaleConfig) (s : Streams) (now : Int) (d : Dataset),
      mainGen cfg s now = .ok d →
      (borrowersActive (genUsers cfg)).filter (fun u => u.id ∉ loginIds cfg) ≠ [] →
      (∀ j, s.openB j < (borrowersBulk (genUsers cfg) (loginIds cfg)).length) →
      (∀ j, s.closedB j < (borrowersBulk (genUsers cfg) (loginIds cfg)).length) →
      (∀ j, s.readyU j < (borrowersBulk (genUsers cfg) (loginIds cfg)).length) →
      (∀ j, s.qU j < (borrowersBulk (genUsers cfg) (loginIds cfg)).length) →
      (∀ l ∈ d.loans, l.userId ∉ loginIds cfg) ∧
      (∀ h ∈ d.holds, h.userId ∉ loginIds cfg) := by
  intro cfg s now d h hbulk hro hrc hrr hrq
  obtain ⟨-, -, -, hloans, hh⟩ := mainGen_ok cfg s now d h
  have hmemP : ∀ j, j < (borrowersBulk (genUsers cfg) (loginIds cfg)).length →
      ((borrowersBulk (genUsers cfg) (loginIds cfg)).getD j dummyUser).id ∉
        loginIds cfg :=
    fun j hj => borrowersBulk_mem_not_login (genUsers cfg) (loginIds cfg) hbulk _
      (getD_mem_of_lt _ j dummyUser hj)
  constructor
  · intro l hl
    rw [hloans] at hl
    rcases List.mem_append.mp hl with hmem | hmem
    · obtain ⟨-, it, -, -, -, j, hu⟩ := genOpenLoans_mem_spec cfg d.items
        (borrowersBulk (genUsers cfg) (loginIds cfg)) s l hmem
      rw [hu]
      exact hmemP _ (hro j)
    · obtain ⟨-, i, -, hu⟩ := genClosedLoans_mem cfg d.items
        (borrowersBulk (genUsers cfg) (loginIds cfg)) s l hmem
      rw [hu]
      exact hmemP _ (hrc i)
  · intro hd hmem
    rw [hh] at hmem
    rcases List.mem_append.mp hmem with hmem | hmem
    · rw [genReadyHolds] at hmem
      obtain ⟨-, p, -, -, -, hu⟩ := genReadyHoldsAux_mem cfg
        (borrowersBulk (genUsers cfg) (loginIds cfg)) s
        ((d.items.filter (fun it => it.status = "on_hold")).enum) [] hd hmem
      rw [hu]
      exact hmemP _ (hrr p.1)
    · rw [genQueuedHolds] at hmem
      obtain ⟨-, -, i, -, hu⟩ := genQueuedHoldsAux_mem cfg
        (queuedBibIds cfg (genBibs cfg)) (borrowersBulk (genUsers cfg) (loginIds cfg)) s
        (List.range' 1 cfg.queuedHolds)
        ((genReadyHolds cfg d.items (borrowersBulk (genUsers cfg) (loginIds cfg)) s).2)
        hd hmem
      rw [hu]
      exact hmemP _ (hrq i)

set_option maxRecDepth 100000 in
set_option maxHeartbeats 4000000 in
/-- Counterexample to C10 as stated: with no bulk students or teachers
configured, every active borrower is login-enabled, `borrowers_bulk`
falls back to the full active pool, and the open loan of `dW10` is
borrowed by the login-enabled teacher T0001. -/
theorem C10_counterexample : ¬ borrowerExclusionClaim := by
  intro hclaim
  have hb : 0 < (borrowersBulk (genUsers cfgW10) (loginIds cfgW10)).length := by decide
  obtain ⟨hl, -⟩ := hclaim cfgW10 sTriv 0 dW10 rfl (fun _ => hb) (fun _ => hb)
    (fun _ => hb) (fun _ => hb)
  have hmem : dW10.loans.getD 0 dummyLoan ∈ dW10.loans :=
    getD_mem_of_lt _ 0 dummyLoan (by decide)
  exact hl (dW10.loans.getD 0 dummyLoan) hmem (by decide)

set_option maxRecDepth 100000 in
set_option maxHeartbeats 4000000 in
/-- Witness for the amended C10 at the concrete run `dW3` (one bulk
student): the open loan's borrower is not a login sentinel. -/
theorem C10_amended_witness :
    (dW3.loans.getD 0 dummyLoan).userId ∉ loginIds cfgW3 := by
  have hb : 0 < (borrowersBulk (genUsers cfgW3) (loginIds cfgW3)).length := by decide
  refine (C10_borrower_exclusion_amended cfgW3 sTriv 0 dW3 rfl (by decide)
    (fun _ => hb) (fun _ => hb) (fun _ => hb) (fun _ => hb)).1
    (dW3.loans.getD 0 dummyLoan) ?_
  exact getD_mem_of_lt _ 0 dummyLoan (by decide)

/-- C9.  Requesting more open loans than generated copies makes the run
abort with the `SCALE_OPEN_LOANS` diagnostic, and an empty active
borrower pool makes the borrower check abort with its diagnostic; in
both cases `mainGen` yields no dataset (in the source, every
`write_csv` call comes after both checks, which the embedding reflects
by producing tables only in the `ok` branch — so no output file is
written). -/
theorem C9_fail_fast :
    (∀ (cfg : ScaleConfig) (s : Streams) (now : Int),
      (genItems cfg s now).length < cfg.openLoans →
      mainGen cfg s now =
        .error (openLoansErrMsg (genItems cfg s now).length cfg.openLoans)) ∧
    (∀ users : List UserR, borrowersActive users = [] →
      borrowersCheck users = .error noBorrowersMsg) := by
  constructor
  · intro cfg s now hlt
    simp only [mainGen]
    rw [if_pos hlt]
  · intro users hempty
    rw [borrowersCheck, if_pos hempty]

/-- Witness for C9: with no bibs and one requested open loan the run
errors with the `SCALE_OPEN_LOANS` diagnostic; with no users the
borrower check errors with its diagnostic. -/
theorem C9_witness :
    ((genItems cfgW9 sTriv 0).length < cfgW9.openLoans ∧
      mainGen cfgW9 sTriv 0 =
        .error (openLoansErrMsg (genItems cfgW9 sTriv 0).length cfgW9.openLoans)) ∧
    (borrowersActive ([] : List UserR) = [] ∧
      borrowersCheck ([] : List UserR) = .error noBorrowersMsg) :=
  ⟨⟨by decide, C9_fail_fast.1 cfgW9 sTriv 0 (by decide)⟩,
   ⟨rfl, C9_fail_fast.2 [] rfl⟩⟩

theorem assertVariantMappingAux_ok_keys (kind : String) (preferred : List String) :
    ∀ (rest : List (String × List String)) (used : List (String × String)),
      assertVariantMappingAux kind preferred used rest = .ok () →
      ∀ kv ∈ rest, kv.1 ∈ preferred := by
  intro rest
  induction rest with
  | nil => intro used _ kv hkv; exact absurd hkv (List.not_mem_nil kv)
  | cons e rest ih =>
    intro used h kv hkv
    obtain ⟨pref, variants⟩ := e
    simp only [assertVariantMappingAux] at h
    split at h
    · rename_i hpref
      split at h
      · exact absurd h (by simp)
      · rcases List.mem_cons.mp hkv with rfl | hkv
        · exact hpref
        · exact ih _ h kv hkv
    · exact absurd h (by simp)

theorem checkVariants_ok_facts (kind : String) (preferred : List String) (pref : String) :
    ∀ (vs : List String) (used used2 : List (String × String)),
      checkVariants kind preferred pref used vs = .ok used2 →
      ∀ v ∈ vs, pyStrip v ≠ "" ∧ pyStrip v ∉ preferred := by
  intro vs
  induction vs with
  | nil => intro used used2 _ v hv; exact absurd hv (List.not_mem_nil v)
  | cons v vs ih =>
    intro used used2 h w hw
    simp only [checkVariants] at h
    split at h
    · exact absurd h (by simp)
    · rename_i hne
      split at h
      · exact absurd h (by simp)
      · split at h
        · exact absurd h (by simp)
        · rename_i hnp
          rcases List.mem_cons.mp hw with rfl | hw
          · exact ⟨hne, hnp⟩
          · split at h
            · split at h
              · exact absurd h (by simp)
              · exact ih _ _ h w hw
            · exact ih _ _ h w hw

theorem assertVariantMappingAux_ok_variants (kind : String) (preferred : List String) :
    ∀ (rest : List (String × List String)) (used : List (String × String)),
      assertVariantMappingAux kind preferred used rest = .ok () →
      ∀ kv ∈ rest, ∀ v ∈ kv.2, pyStrip v ≠ "" ∧ pyStrip v ∉ preferred := by
  intro rest
  induction rest with
  | nil => intro used _ kv hkv; exact absurd hkv (List.not_mem_nil kv)
  | cons e rest ih =>
    intro used h kv hkv
    obtain ⟨pref, variants⟩ := e
    simp only [assertVariantMappingAux] at h
    split at h
    · split at h
      · exact absurd h (by simp)
      · rename_i used2 hchk
        rcases List.mem_cons.mp hkv with rfl | hkv
        · exact checkVariants_ok_facts kind preferred pref variants used used2 hchk
        · exact ih _ h kv hkv
    · exact absurd h (by simp)

theorem checkVariants_ok_strong (kind : String) (preferred : List String) (pref : String)
    (hpref : pref ∈ preferred) (hemp : "" ∉ preferred) :
    ∀ (vs : List String) (used used2 : List (String × String)),
      (∀ p ∈ used, p.2 ∈ preferred) →
      (∀ p ∈ used, ∀ q ∈ used, p.1 = q.1 → p.2 = q.2) →
      checkVariants kind preferred pref used vs = .ok used2 →
      (∀ p ∈ used, p ∈ used2) ∧
      (∀ p ∈ used2, p.2 ∈ preferred) ∧
      (∀ p ∈ used2, ∀ q ∈ used2, p.1 = q.1 → p.2 = q.2) ∧
      (∀ v ∈ vs, (pyStrip v, pref) ∈ used2) ∧
      (∀ v ∈ vs, ∀ p ∈ used, p.1 = pyStrip v → p.2 = pref) := by
  intro vs
  induction vs with
  | nil =>
    intro used used2 hval hfun h
    simp only [checkVariants, Except.ok.injEq] at h
    subst h
    exact ⟨fun p hp => hp, hval, hfun, fun v hv => absurd hv (List.not_mem_nil v),
      fun v hv => absurd hv (List.not_mem_nil v)⟩
  | cons v vs ih =>
    intro used used2 hval hfun h
    simp only [checkVariants] at h
    split at h
    · exact absurd h (by simp)
    · split at h
      · exact absurd h (by simp)
      · split at h
        · exact absurd h (by simp)
        · split at h
          · -- find? returned some owner
            rename_i owner hfind
            split at h
            · exact absurd h (by simp)
            · rename_i hcond
              obtain ⟨pair, hpairf, hpairval⟩ := Option.map_eq_some'.mp hfind
              have hpairmem := List.mem_of_find?_eq_some hpairf
              have hpairkey := List.find?_some hpairf
              simp only [decide_eq_true_eq] at hpairkey
              have howner : owner = pref := by
                by_contra hop
                have hop2 : owner ≠ "" := by
                  intro he
                  apply hemp
                  rw [← he]
                  rw [← hpairval]
                  exact hval pair hpairmem
                exact hcond ⟨hop2, hop⟩
              have hval2 : ∀ p ∈ (pyStrip v, pref) :: used, p.2 ∈ preferred := by
                intro p hp
                rcases List.mem_cons.mp hp with rfl | hp
                · exact hpref
                · exact hval p hp
              have hfun2 : ∀ p ∈ (pyStrip v, pref) :: used,
                  ∀ q ∈ (pyStrip v, pref) :: used, p.1 = q.1 → p.2 = q.2 := by
                intro p hp q hq hpq
                rcases List.mem_cons.mp hp with rfl | hp <;>
                  rcases List.mem_cons.mp hq with rfl | hq
                · rfl
                · rw [show ((pyStrip v, pref) : String × String).2 = pref from rfl]
                  have := hfun q hq pair hpairmem (by rw [← hpq, hpairkey])
                  rw [hpairval] at this
                  rw [this, howner]
                · have := hfun p hp pair hpairmem (by rw [hpq, hpairkey])
                  rw [hpairval] at this
                  rw [this, howner]
                · exact hfun p hp q hq hpq
              obtain ⟨s1, s2, s3, s4, s5⟩ := ih ((pyStrip v, pref) :: used) used2 hval2 hfun2 h
              refine ⟨fun p hp => s1 p (List.mem_cons_of_mem _ hp), s2, s3, ?_, ?_⟩
              · intro w hw
                rcases List.mem_cons.mp hw with rfl | hw
                · exact s1 _ (List.mem_cons_self _ _)
                · exact s4 w hw
              · intro w hw p hp hkey
                rcases List.mem_cons.mp hw with rfl | hw
                · have := hfun p hp pair hpairmem (by rw [hkey, hpairkey])
                  rw [hpairval] at this
                  rw [this, howner]
                · exact s5 w hw p (List.mem_cons_of_mem _ hp) hkey
          · -- find? returned none
            rename_i hfind
            have hfn : (used.find? fun p => p.1 = pyStrip v) = none := by
              cases hcase : (used.find? fun p => p.1 = pyStrip v) with
              | none => rfl
              | some pair => rw [hcase] at hfind; exact absurd hfind (by simp)
            have hnotin : ∀ p ∈ used, p.1 ≠ pyStrip v := by
              intro p hp he
              have := List.find?_eq_none.mp hfn p hp
              exact this (by simp [he])
            have hval2 : ∀ p ∈ (pyStrip v, pref) :: used, p.2 ∈ preferred := by
              intro p hp
              rcases List.mem_cons.mp hp with rfl | hp
              · exact hpref
              · exact hval p hp
            have hfun2 : ∀ p ∈ (pyStrip v, pref) :: used,
                ∀ q ∈ (pyStrip v, pref) :: used, p.1 = q.1 → p.2 = q.2 := by
              intro p hp q hq hpq
              rcases List.mem_cons.mp hp with rfl | hp <;>
                rcases List.mem_cons.mp hq with rfl | hq
              · rfl
              · exact absurd hpq.symm (hnotin q hq)
              · exact absurd hpq (hnotin p hp)
              · exact hfun p hp q hq hpq
            obtain ⟨s1, s2, s3, s4, s5⟩ := ih ((pyStrip v, pref) :: used) used2 hval2 hfun2 h
            refine ⟨fun p hp => s1 p (List.mem_cons_of_mem _ hp), s2, s3, ?_, ?_⟩
            · intro w hw
              rcases List.mem_cons.mp hw with rfl | hw
              · exact s1 _ (List.mem_cons_self _ _)
              · exact s4 w hw
            · intro w hw p hp hkey
              rcases List.mem_cons.mp hw with rfl | hw
              · exact absurd hkey (hnotin p hp)
              · exact s5 w hw p (List.mem_cons_of_mem _ hp) hkey

theorem assertVariantMappingAux_ok_cross (kind : String) (preferred : List String)
    (hemp : "" ∉ preferred) :
    ∀ (rest : List (String × List String)) (used : List (String × String)),
      (∀ p ∈ used, p.2 ∈ preferred) →
      (∀ p ∈ used, ∀ q ∈ used, p.1 = q.1 → p.2 = q.2) →
      assertVariantMappingAux kind preferred used rest = .ok () →
      (∀ kv ∈ rest, ∀ v ∈ kv.2, ∀ p ∈ used, p.1 = pyStrip v → p.2 = kv.1) ∧
      (∀ kv ∈ rest, ∀ kv2 ∈ rest, kv.1 ≠ kv2.1 →
        ∀ v ∈ kv.2, ∀ v2 ∈ kv2.2, pyStrip v ≠ pyStrip v2) := by
  intro rest
  induction rest with
  | nil =>
    intro used _ _ _
    exact ⟨fun kv hkv => absurd hkv (List.not_mem_nil kv),
      fun kv hkv => absurd hkv (List.not_mem_nil kv)⟩
  | cons e rest ih =>
    intro used hval hfun h
    obtain ⟨pref, variants⟩ := e
    simp only [assertVariantMappingAux] at h
    split at h
    · rename_i hpref
      split at h
      · exact absurd h (by simp)
      · rename_i used2 hchk
        obtain ⟨s1, s2, s3, s4, s5⟩ :=
          checkVariants_ok_strong kind preferred pref hpref hemp variants used used2
            hval hfun hchk
        obtain ⟨ih1, ih2⟩ := ih used2 s2 s3 h
        constructor
        · intro kv hkv v hv p hp hkey
          rcases List.mem_cons.mp hkv with rfl | hkv
          · exact s5 v hv p hp hkey
          · exact ih1 kv hkv v hv p (s1 p hp) hkey
        · intro kv hkv kv2 hkv2 hne v hv v2 hv2 heq
          rcases List.mem_cons.mp hkv with rfl | hkv <;>
            rcases List.mem_cons.mp hkv2 with rfl | hkv2
          · exact hne rfl
          · have hbind := s4 v hv
            have := ih1 kv2 hkv2 v2 hv2 (pyStrip v, pref) hbind (by rw [heq])
            exact hne this
          · have hbind := s4 v2 hv2
            have := ih1 kv hkv v hv (pyStrip v2, pref) hbind (by rw [heq])
            exact hne this.symm
          · exact ih2 kv hkv kv2 hkv2 hne v hv v2 hv2 heq
    · exact absurd h (by simp)

theorem checkVariants_ok_of_not_viol (kind : String) (preferred : List String)
    (M : List (String × List String)) (hP : ¬ variantViolation preferred M)
    (pref : String) (vs0 : List String) (hM : (pref, vs0) ∈ M) :
    ∀ (vs : List String) (used : List (String × String)),
      (∀ v ∈ vs, v ∈ vs0) →
      (∀ p ∈ used, ∃ kv ∈ M, kv.1 = p.2 ∧ ∃ v ∈ kv.2, pyStrip v = p.1) →
      ∃ used2, checkVariants kind preferred pref used vs = .ok used2 ∧
        (∀ p ∈ used2, ∃ kv ∈ M, kv.1 = p.2 ∧ ∃ v ∈ kv.2, pyStrip v = p.1) := by
  intro vs
  induction vs with
  | nil =>
    intro used _ hused
    exact ⟨used, rfl, hused⟩
  | cons v vs ih =>
    intro used hvs hused
    have hv0 : v ∈ vs0 := hvs v (List.mem_cons_self _ _)
    have hne : pyStrip v ≠ "" := by
      intro he
      exact hP (Or.inr (Or.inl ⟨(pref, vs0), hM, v, hv0, he⟩))
    have hnp : pyStrip v ∉ preferred := by
      intro he
      exact hP (Or.inr (Or.inr (Or.inl ⟨(pref, vs0), hM, v, hv0, he⟩)))
    have hnpref : pyStrip v ≠ pref := by
      intro he
      have hkp : pref ∈ preferred := by
        by_contra hk
        exact hP (Or.inl ⟨(pref, vs0), hM, hk⟩)
      exact hnp (he ▸ hkp)
    have hnew : ∀ p ∈ (pyStrip v, pref) :: used,
        ∃ kv ∈ M, kv.1 = p.2 ∧ ∃ w ∈ kv.2, pyStrip w = p.1 := by
      intro p hp
      rcases List.mem_cons.mp hp with rfl | hp
      · exact ⟨(pref, vs0), hM, rfl, v, hv0, rfl⟩
      · exact hused p hp
    obtain ⟨used2, hrun, hinv⟩ :=
      ih ((pyStrip v, pref) :: used) (fun w hw => hvs w (List.mem_cons_of_mem _ hw)) hnew
    refine ⟨used2, ?_, hinv⟩
    simp only [checkVariants]
    rw [if_neg hne, if_neg hnpref, if_neg hnp]
    cases hfind : (used.find? fun p => p.1 = pyStrip v).map Prod.snd with
    | none => exact hrun
    | some owner =>
      obtain ⟨pair, hpairf, hpairval⟩ := Option.map_eq_some'.mp hfind
      have hpairmem := List.mem_of_find?_eq_some hpairf
      have hpairkey := List.find?_some hpairf
      simp only [decide_eq_true_eq] at hpairkey
      have howner : owner = pref := by
        by_contra hop
        obtain ⟨kv2, hkv2, hkey2, v2, hv2, hstrip2⟩ := hused pair hpairmem
        apply hP
        refine Or.inr (Or.inr (Or.inr ⟨(pref, vs0), hM, kv2, hkv2, ?_, v, hv0, v2, hv2, ?_⟩))
        · rw [hkey2, hpairval]
          exact fun he => hop he.symm
        · rw [hstrip2, hpairkey]
      split
      · rename_i o ho
        rw [Option.some_inj] at ho
        split
        · rename_i hcond
          rw [← ho] at hcond
          exact absurd howner hcond.2
        · exact hrun
      · rename_i ho
        exact absurd ho (by simp)

theorem assertVariantMappingAux_ok_of_not_viol (kind : String) (preferred : List String)
    (M : List (String × List String)) (hP : ¬ variantViolation preferred M) :
    ∀ (rest : List (String × List String)) (used : List (String × String)),
      (∀ kv ∈ rest, kv ∈ M) →
      (∀ p ∈ used, ∃ kv ∈ M, kv.1 = p.2 ∧ ∃ v ∈ kv.2, pyStrip v = p.1) →
      assertVariantMappingAux kind preferred used rest = .ok () := by
  intro rest
  induction rest with
  | nil => intro used _ _; rfl
  | cons e rest ih =>
    intro used hrest hused
    obtain ⟨pref, variants⟩ := e
    have hM : (pref, variants) ∈ M := hrest _ (List.mem_cons_self _ _)
    have hpref : pref ∈ preferred := by
      by_contra hk
      exact hP (Or.inl ⟨(pref, variants), hM, hk⟩)
    obtain ⟨used2, hrun, hinv⟩ := checkVariants_ok_of_not_viol kind preferred M hP
      pref variants hM variants used (fun v hv => hv) hused
    simp only [assertVariantMappingAux]
    rw [if_pos hpref, hrun]
    exact ih used2 (fun kv hkv => hrest kv (List.mem_cons_of_mem _ hkv)) hinv

/-- C8.  With a preferred-label set free of the empty label (guaranteed
upstream by `assert_unique_preferred`, which rejects empty preferred
labels), `assert_variant_mapping` passes exactly when no variant
integrity violation exists: every mapping key is a known preferred
label, no stripped variant is empty or equal to any preferred label
(its own included), and no variant is claimed by two different
preferred labels. -/
theorem C8_variant_validation_iff :
    ∀ (kind : String) (preferred : List String) (mapping : List (String × List String)),
      "" ∉ preferred →
      (assertVariantMapping kind preferred mapping = .ok () ↔
        ¬ variantViolation preferred mapping) := by
  intro kind preferred mapping hemp
  constructor
  · intro hok hP
    rcases hP with ⟨kv, hkv, hk⟩ | ⟨kv, hkv, v, hv, he⟩ | ⟨kv, hkv, v, hv, hpe⟩ |
      ⟨kv, hkv, kv2, hkv2, hne, v, hv, v2, hv2, heq⟩
    · exact hk (assertVariantMappingAux_ok_keys kind preferred mapping [] hok kv hkv)
    · exact (assertVariantMappingAux_ok_variants kind preferred mapping [] hok
        kv hkv v hv).1 he
    · exact (assertVariantMappingAux_ok_variants kind preferred mapping [] hok
        kv hkv v hv).2 hpe
    · exact (assertVariantMappingAux_ok_cross kind preferred hemp mapping []
        (fun p hp => absurd hp (List.not_mem_nil p))
        (fun p hp => absurd hp (List.not_mem_nil p)) hok).2
        kv hkv kv2 hkv2 hne v hv v2 hv2 heq
  · intro hP
    exact assertVariantMappingAux_ok_of_not_viol kind preferred mapping hP mapping []
      (fun kv hkv => hkv) (fun p hp => absurd hp (List.not_mem_nil p))

/-- Witness for C8: a concrete clean mapping passes the validator, so by
the theorem it has no violation; shape as in the built-in vocabularies. -/
theorem C8_witness :
    ¬ variantViolation ["資訊素養", "媒體識讀"]
      [("資訊素養", ["資訊能力"]), ("媒體識讀", ["媒體素養"])] :=
  (C8_variant_validation_iff "subject" ["資訊素養", "媒體識讀"]
    [("資訊素養", ["資訊能力"]), ("媒體識讀", ["媒體素養"])] (by decide)).mp (by decide)

theorem mem_parentsOf (edges : List (String × String)) (a b : String) :
    b ∈ parentsOf edges a ↔ (a, b) ∈ edges := by
  simp only [parentsOf, List.mem_map, List.mem_filter, decide_eq_true_eq]
  constructor
  · rintro ⟨⟨x, y⟩, ⟨hm, h1⟩, h2⟩
    simp only at h1 h2
    subst h1
    subst h2
    exact hm
  · intro hm
    exact ⟨(a, b), ⟨hm, rfl⟩, rfl⟩

theorem mem_dedupFirstAux : ∀ (l : List String) (seen : List String) (x : String),
    x ∈ dedupFirstAux seen l ↔ x ∈ l ∧ x ∉ seen := by
  intro l
  induction l with
  | nil => intro seen x; simp [dedupFirstAux]
  | cons a l ih =>
    intro seen x
    simp only [dedupFirstAux]
    split
    · rename_i ha
      rw [ih seen x]
      constructor
      · exact fun h => ⟨List.mem_cons_of_mem _ h.1, h.2⟩
      · rintro ⟨h1, h2⟩
        rcases List.mem_cons.mp h1 with rfl | h1
        · exact absurd ha h2
        · exact ⟨h1, h2⟩
    · rename_i ha
      constructor
      · intro hx
        rcases List.mem_cons.mp hx with rfl | hx
        · exact ⟨List.mem_cons_self _ _, ha⟩
        · have := (ih (a :: seen) x).mp hx
          exact ⟨List.mem_cons_of_mem _ this.1,
            fun hs => this.2 (List.mem_cons_of_mem _ hs)⟩
      · rintro ⟨h1, h2⟩
        rcases List.mem_cons.mp h1 with rfl | h1
        · exact List.mem_cons_self _ _
        · by_cases hxa : x = a
          · subst hxa; exact List.mem_cons_self _ _
          · refine List.mem_cons_of_mem _ ((ih (a :: seen) x).mpr ⟨h1, ?_⟩)
            intro hs
            rcases List.mem_cons.mp hs with h | h
            · exact hxa h
            · exact h2 h

theorem nodup_dedupFirstAux : ∀ (l : List String) (seen : List String),
    (dedupFirstAux seen l).Nodup := by
  intro l
  induction l with
  | nil => intro seen; exact List.nodup_nil
  | cons a l ih =>
    intro seen
    simp only [dedupFirstAux]
    split
    · exact ih seen
    · refine List.nodup_cons.mpr ⟨?_, ih (a :: seen)⟩
      intro hmem
      exact ((mem_dedupFirstAux l (a :: seen) a).mp hmem).2 (List.mem_cons_self _ _)

theorem mem_keysOf (edges : List (String × String)) (n : String) :
    n ∈ keysOf edges ↔ ∃ p, (n, p) ∈ edges := by
  rw [keysOf, mem_dedupFirstAux]
  simp only [List.not_mem_nil, not_false_eq_true, and_true, List.mem_map]
  constructor
  · rintro ⟨⟨x, y⟩, hm, h⟩
    simp only at h
    subst h
    exact ⟨y, hm⟩
  · rintro ⟨p, hp⟩
    exact ⟨(n, p), hp, rfl⟩

theorem keysOf_subset_allNodes (edges : List (String × String)) :
    ∀ x ∈ keysOf edges, x ∈ allNodes edges := by
  intro x hx
  rw [keysOf, mem_dedupFirstAux] at hx
  rw [allNodes, mem_dedupFirstAux]
  exact ⟨List.mem_append_left _ hx.1, hx.2⟩

theorem parentsOf_subset_allNodes (edges : List (String × String)) (n : String) :
    ∀ x ∈ parentsOf edges n, x ∈ allNodes edges := by
  intro x hx
  have hm : (n, x) ∈ edges := (mem_parentsOf edges n x).mp hx
  rw [allNodes, mem_dedupFirstAux]
  refine ⟨List.mem_append_right _ ?_, List.not_mem_nil x⟩
  exact List.mem_map.mpr ⟨(n, x), hm, rfl⟩

theorem parentsOf_length_le (edges : List (String × String)) (n : String) :
    (parentsOf edges n).length ≤ edges.length := by
  rw [parentsOf, List.length_map]
  exact List.length_filter_le _ _

theorem dfsM_fuel (edges : List (String × String)) :
    ∀ (fuel : Nat) (ns path visited : List String),
      path.Nodup →
      (∀ x ∈ path, x ∈ allNodes edges) →
      (∀ x ∈ ns, x ∈ allNodes edges) →
      ns.length + ((allNodes edges).length - path.length) * (edges.length + 1) ≤ fuel →
      dfsM edges fuel ns path visited ≠ none := by
  intro fuel
  induction fuel with
  | zero =>
    intro ns path visited _ _ _ hle
    cases ns with
    | nil => simp [dfsM]
    | cons n ns => simp only [List.length_cons] at hle; omega
  | succ fuel ih =>
    intro ns path visited hnd hp hns hle
    cases ns with
    | nil => simp [dfsM]
    | cons n ns =>
      simp only [dfsM]
      split
      · simp
      · split
        · refine ih ns path visited hnd hp
            (fun x hx => hns x (List.mem_cons_of_mem _ hx)) ?_
          simp only [List.length_cons] at hle
          generalize ((allNodes edges).length - path.length) * (edges.length + 1) = M at hle ⊢
          omega
        · rename_i hnp _
          have hn_all : n ∈ allNodes edges := hns n (List.mem_cons_self _ _)
          have hnd2 : (path ++ [n]).Nodup := by
            rw [List.nodup_append]
            exact ⟨hnd, List.nodup_singleton n,
              fun x hx hx2 => hnp (by rw [← List.mem_singleton.mp hx2]; exact hx)⟩
          have hp2 : ∀ x ∈ path ++ [n], x ∈ allNodes edges := by
            intro x hx
            rcases List.mem_append.mp hx with hx | hx
            · exact hp x hx
            · rw [List.mem_singleton.mp hx]; exact hn_all
          have hPN : path.length + 1 ≤ (allNodes edges).length := by
            have := List.Subperm.length_le
              (List.subperm_of_subset hnd2 (fun x hx => hp2 x hx))
            simpa using this
          have hinner : dfsM edges fuel (parentsOf edges n) (path ++ [n]) visited ≠ none := by
            refine ih (parentsOf edges n) (path ++ [n]) visited hnd2 hp2
              (parentsOf_subset_allNodes edges n) ?_
            have hK : (parentsOf edges n).length ≤ edges.length := parentsOf_length_le edges n
            have hsub : (allNodes edges).length - path.length
                = ((allNodes edges).length - (path.length + 1)) + 1 := by omega
            rw [hsub, Nat.add_mul, one_mul] at hle
            have hlen2 : (path ++ [n]).length = path.length + 1 := by simp
            rw [hlen2]
            simp only [List.length_cons] at hle
            generalize ((allNodes edges).length - (path.length + 1)) * (edges.length + 1)
              = M at hle ⊢
            omega
          cases hin : dfsM edges fuel (parentsOf edges n) (path ++ [n]) visited with
          | none => exact absurd hin hinner
          | some r =>
            cases r with
            | error e => simp
            | ok v2 =>
              show dfsM edges fuel ns path (v2 ++ [n]) ≠ none
              refine ih ns path (v2 ++ [n]) hnd hp
                (fun x hx => hns x (List.mem_cons_of_mem _ hx)) ?_
              simp only [List.length_cons] at hle
              generalize ((allNodes edges).length - path.length) * (edges.length + 1)
                = M at hle ⊢
              omega

theorem dfsM_ok_mono (edges : List (String × String)) :
    ∀ (fuel : Nat) (ns path visited w : List String),
      dfsM edges fuel ns path visited = some (.ok w) →
      ∃ d, w = visited ++ d := by
  intro fuel
  induction fuel with
  | zero =>
    intro ns path visited w h
    cases ns with
    | nil =>
      simp only [dfsM, Option.some_inj, Except.ok.injEq] at h
      exact ⟨[], by rw [← h, List.append_nil]⟩
    | cons n ns => exact absurd h (by simp [dfsM])
  | succ fuel ih =>
    intro ns path visited w h
    cases ns with
    | nil =>
      simp only [dfsM, Option.some_inj, Except.ok.injEq] at h
      exact ⟨[], by rw [← h, List.append_nil]⟩
    | cons n ns =>
      simp only [dfsM] at h
      split at h
      · exact absurd h (by simp)
      · split at h
        · exact ih ns path visited w h
        · split at h
          · exact absurd h (by simp)
          · exact absurd h (by simp)
          · rename_i v2 hinner
            obtain ⟨d1, hd1⟩ := ih _ _ _ _ hinner
            obtain ⟨d2, hd2⟩ := ih _ _ _ _ h
            exact ⟨d1 ++ [n] ++ d2, by rw [hd2, hd1]; simp⟩

theorem dfsM_ok_mem (edges : List (String × String)) :
    ∀ (fuel : Nat) (ns path visited w : List String),
      dfsM edges fuel ns path visited = some (.ok w) →
      ∀ x ∈ ns, x ∈ w := by
  intro fuel
  induction fuel with
  | zero =>
    intro ns path visited w h x hx
    cases ns with
    | nil => exact absurd hx (List.not_mem_nil x)
    | cons n ns => exact absurd h (by simp [dfsM])
  | succ fuel ih =>
    intro ns path visited w h x hx
    cases ns with
    | nil => exact absurd hx (List.not_mem_nil x)
    | cons n ns =>
      simp only [dfsM] at h
      split at h
      · exact absurd h (by simp)
      · split at h
        · rename_i hnv
          rcases List.mem_cons.mp hx with rfl | hx
          · obtain ⟨d, hd⟩ := dfsM_ok_mono edges fuel ns path visited w h
            rw [hd]
            exact List.mem_append_left _ hnv
          · exact ih ns path visited w h x hx
        · split at h
          · exact absurd h (by simp)
          · exact absurd h (by simp)
          · rename_i v2 hinner
            rcases List.mem_cons.mp hx with rfl | hx
            · obtain ⟨d, hd⟩ := dfsM_ok_mono edges fuel ns path (v2 ++ [x]) w h
              rw [hd]
              exact List.mem_append_left _
                (List.mem_append_right _ (List.mem_cons_self _ _))
            · exact ih ns path (v2 ++ [n]) w h x hx

theorem dfsM_ok_ranked (edges : List (String × String)) :
    ∀ (fuel : Nat) (ns path visited w : List String),
      dfsM edges fuel ns path visited = some (.ok w) →
      visited.Nodup → RankedInv edges visited →
      (∀ x ∈ visited, x ∉ path) →
      w.Nodup ∧ RankedInv edges w ∧ (∀ x ∈ w, x ∉ path) := by
  intro fuel
  induction fuel with
  | zero =>
    intro ns path visited w h hnd hr hfr
    cases ns with
    | nil =>
      simp only [dfsM, Option.some_inj, Except.ok.injEq] at h
      rw [← h]
      exact ⟨hnd, hr, hfr⟩
    | cons n ns => exact absurd h (by simp [dfsM])
  | succ fuel ih =>
    intro ns path visited w h hnd hr hfr
    cases ns with
    | nil =>
      simp only [dfsM, Option.some_inj, Except.ok.injEq] at h
      rw [← h]
      exact ⟨hnd, hr, hfr⟩
    | cons n ns =>
      simp only [dfsM] at h
      split at h
      · exact absurd h (by simp)
      · split at h
        · exact ih ns path visited w h hnd hr hfr
        · rename_i hnp hnv
          split at h
          · exact absurd h (by simp)
          · exact absurd h (by simp)
          · rename_i v2 hinner
            have hfr1 : ∀ x ∈ visited, x ∉ path ++ [n] := by
              intro x hx hmem
              rcases List.mem_append.mp hmem with hm | hm
              · exact hfr x hx hm
              · rw [List.mem_singleton.mp hm] at hx
                exact hnv hx
            obtain ⟨hnd1, hr1, hfr2⟩ := ih (parentsOf edges n) (path ++ [n]) visited v2
              hinner hnd hr hfr1
            have hnmem : n ∉ v2 := by
              intro hmem
              exact hfr2 n hmem (List.mem_append_right _ (List.mem_cons_self _ _))
            have hpar : ∀ p ∈ parentsOf edges n, p ∈ v2 :=
              dfsM_ok_mem edges fuel (parentsOf edges n) (path ++ [n]) visited v2 hinner
            have hnd2 : (v2 ++ [n]).Nodup := by
              rw [List.nodup_append]
              refine ⟨hnd1, List.nodup_singleton n, ?_⟩
              intro x hx hx2
              rw [List.mem_singleton.mp hx2] at hx
              exact hnmem hx
            have hr2 : RankedInv edges (v2 ++ [n]) := by
              intro m hm p hp
              rcases List.mem_append.mp hm with hm | hm
              · obtain ⟨hpm, hpi⟩ := hr1 m hm p hp
                refine ⟨List.mem_append_left _ hpm, ?_⟩
                rw [List.indexOf_append_of_mem hpm, List.indexOf_append_of_mem hm]
                exact hpi
              · rw [List.mem_singleton.mp hm] at hp ⊢
                have hpv : p ∈ v2 := hpar p hp
                refine ⟨List.mem_append_left _ hpv, ?_⟩
                rw [List.indexOf_append_of_mem hpv,
                  List.indexOf_append_of_not_mem hnmem, List.indexOf_cons_self]
                have := List.indexOf_lt_length.mpr hpv
                omega
            have hfr3 : ∀ x ∈ v2 ++ [n], x ∉ path := by
              intro x hx
              rcases List.mem_append.mp hx with hx | hx
              · exact fun hm => hfr2 x hx (List.mem_append_left _ hm)
              · rw [List.mem_singleton.mp hx]
                exact hnp
            exact ih ns path (v2 ++ [n]) w h hnd2 hr2 hfr3

theorem transGen_first_edge {α : Type} {R : α → α → Prop} :
    ∀ (a b : α), Relation.TransGen R a b → ∃ c, R a c := by
  intro a b h
  induction h with
  | single h => exact ⟨_, h⟩
  | tail _ _ ih => exact ih

theorem ranked_no_cycle_aux (edges : List (String × String)) (w : List String)
    (hr : RankedInv edges w) :
    ∀ a b, Relation.TransGen (edgeRel edges) a b → a ∈ w →
      b ∈ w ∧ w.indexOf b < w.indexOf a := by
  intro a b h
  induction h with
  | single hab =>
    intro ha
    exact hr a ha _ ((mem_parentsOf edges a _).mpr hab)
  | tail _ hbc ih =>
    intro ha
    obtain ⟨hb, hlt⟩ := ih ha
    obtain ⟨hc, hlt2⟩ := hr _ hb _ ((mem_parentsOf edges _ _).mpr hbc)
    exact ⟨hc, lt_trans hlt2 hlt⟩

theorem assertAcyclicE_ok_no_cycle (edges : List (String × String)) :
    assertAcyclicE edges = .ok () →
    ¬ ∃ n, Relation.TransGen (edgeRel edges) n n := by
  intro hok hcyc
  obtain ⟨n, hn⟩ := hcyc
  unfold assertAcyclicE at hok
  split at hok
  · rename_i w hrun
    obtain ⟨p, hedge⟩ := transGen_first_edge n n hn
    have hkey : n ∈ keysOf edges := (mem_keysOf edges n).mpr ⟨p, hedge⟩
    have hmem : n ∈ w :=
      dfsM_ok_mem edges (acyclicFuel edges) (keysOf edges) [] [] w hrun n hkey
    obtain ⟨_, hr, _⟩ := dfsM_ok_ranked edges (acyclicFuel edges) (keysOf edges) [] [] w
      hrun List.nodup_nil (fun m hm => absurd hm (List.not_mem_nil m))
      (fun x hx => absurd hx (List.not_mem_nil x))
    obtain ⟨_, hlt⟩ := ranked_no_cycle_aux edges w hr n n hn hmem
    exact lt_irrefl _ hlt
  · exact absurd hok (by simp)
  · exact absurd hok (by simp)

theorem dfsM_no_error (edges : List (String × String))
    (hnc : ¬ ∃ n, Relation.TransGen (edgeRel edges) n n) :
    ∀ (fuel : Nat) (ns path visited : List String),
      (∀ x ∈ ns, ∀ p ∈ path, Relation.TransGen (edgeRel edges) p x) →
      ∀ e, dfsM edges fuel ns path visited ≠ some (.error e) := by
  intro fuel
  induction fuel with
  | zero =>
    intro ns path visited _ e
    cases ns with
    | nil => simp [dfsM]
    | cons n ns => simp [dfsM]
  | succ fuel ih =>
    intro ns path visited hinv e
    cases ns with
    | nil => simp [dfsM]
    | cons n ns =>
      simp only [dfsM]
      split
      · rename_i hnp
        exact absurd ⟨n, hinv n (List.mem_cons_self _ _) n hnp⟩ hnc
      · split
        · exact ih ns path visited (fun x hx => hinv x (List.mem_cons_of_mem _ hx)) e
        · have hinv2 : ∀ x ∈ parentsOf edges n, ∀ p ∈ path ++ [n],
              Relation.TransGen (edgeRel edges) p x := by
            intro x hx p hp
            have hedge : edgeRel edges n x := (mem_parentsOf edges n x).mp hx
            rcases List.mem_append.mp hp with hp | hp
            · exact Relation.TransGen.tail
                (hinv n (List.mem_cons_self _ _) p hp) hedge
            · rw [List.mem_singleton.mp hp]
              exact Relation.TransGen.single hedge
          cases hin : dfsM edges fuel (parentsOf edges n) (path ++ [n]) visited with
          | none => simp
          | some r =>
            cases r with
            | error e2 => exact absurd hin (ih _ _ _ hinv2 e2)
            | ok v2 =>
              show dfsM edges fuel ns path (v2 ++ [n]) ≠ some (.error e)
              exact ih ns path (v2 ++ [n])
                (fun x hx => hinv x (List.mem_cons_of_mem _ hx)) e

theorem assertAcyclicE_complete (edges : List (String × String))
    (hnc : ¬ ∃ n, Relation.TransGen (edgeRel edges) n n) :
    assertAcyclicE edges = .ok () := by
  unfold assertAcyclicE
  cases hrun : dfsM edges (acyclicFuel edges) (keysOf edges) [] [] with
  | none =>
    exact absurd hrun (dfsM_fuel edges (acyclicFuel edges) (keysOf edges) [] []
      List.nodup_nil (fun x hx => absurd hx (List.not_mem_nil x))
      (keysOf_subset_allNodes edges) (by simp [acyclicFuel]))
  | some r =>
    cases r with
    | error e =>
      exact absurd hrun (dfsM_no_error edges hnc (acyclicFuel edges) (keysOf edges) [] []
        (fun x _ p hp => absurd hp (List.not_mem_nil p)) e)
    | ok w => rfl

theorem dfsM_error_cycle (edges : List (String × String)) :
    ∀ (fuel : Nat) (ns path visited : List String) (e : List String),
      (∀ x ∈ ns, List.Chain' (edgeRel edges) (path ++ [x])) →
      dfsM edges fuel ns path visited = some (.error e) →
      CycleIn edges e := by
  intro fuel
  induction fuel with
  | zero =>
    intro ns path visited e _ h
    cases ns with
    | nil => exact absurd h (by simp [dfsM])
    | cons n ns => exact absurd h (by simp [dfsM])
  | succ fuel ih =>
    intro ns path visited e hinv h
    cases ns with
    | nil => exact absurd h (by simp [dfsM])
    | cons n ns =>
      simp only [dfsM] at h
      split at h
      · rename_i hnp
        have he : e = path ++ [n] := by
          simp only [Option.some_inj, Except.error.injEq] at h
          exact h.symm
        obtain ⟨p1, p2, hpath⟩ := List.append_of_mem hnp
        refine ⟨n :: p2, by simp, ?_, ?_⟩
        · have ht : (n :: p2) ++ (n :: p2).take 1 = (n :: p2) ++ [n] := by simp
          rw [ht]
          have hch : List.Chain' (edgeRel edges) (path ++ [n]) :=
            hinv n (List.mem_cons_self _ _)
          rw [hpath] at hch
          have ha : (p1 ++ n :: p2) ++ [n] = p1 ++ ((n :: p2) ++ [n]) := by simp
          rw [ha] at hch
          exact hch.suffix ⟨p1, rfl⟩
        · intro x hx
          rw [he, hpath]
          rcases List.mem_cons.mp hx with rfl | hx
          · exact List.mem_append_left _
              (List.mem_append_right _ (List.mem_cons_self _ _))
          · exact List.mem_append_left _
              (List.mem_append_right _ (List.mem_cons_of_mem _ hx))
      · split at h
        · exact ih ns path visited e (fun x hx => hinv x (List.mem_cons_of_mem _ hx)) h
        · rename_i hnp _
          split at h
          · exact absurd h (by simp)
          · rename_i e2 hinner
            have he : e2 = e := by
              simp only [Option.some_inj, Except.error.injEq] at h
              exact h
            subst he
            refine ih (parentsOf edges n) (path ++ [n]) visited e2 ?_ hinner
            intro x hx
            have hedge : edgeRel edges n x := (mem_parentsOf edges n x).mp hx
            have hch : List.Chain' (edgeRel edges) (path ++ [n]) :=
              hinv n (List.mem_cons_self _ _)
            rw [List.chain'_append]
            refine ⟨hch, List.chain'_singleton x, ?_⟩
            intro a ha y hy
            simp only [List.getLast?_concat, Option.mem_def, Option.some_inj] at ha
            simp only [List.head?_cons, Option.mem_def, Option.some_inj] at hy
            rw [← ha, ← hy]
            exact hedge
          · exact ih ns path _ e (fun x hx => hinv x (List.mem_cons_of_mem _ hx)) h

theorem assertAcyclicE_error_cycle (edges : List (String × String)) (e : List String) :
    assertAcyclicE edges = .error e → CycleIn edges e := by
  intro h
  unfold assertAcyclicE at h
  split at h
  · exact absurd h (by simp)
  · rename_i e2 hrun
    have he : e2 = e := by
      simp only [Except.error.injEq] at h
      exact h
    subst he
    exact dfsM_error_cycle edges (acyclicFuel edges) (keysOf edges) [] [] e2
      (fun x _ => List.chain'_singleton x) hrun
  · rename_i hrun
    exact absurd hrun (dfsM_fuel edges (acyclicFuel edges) (keysOf edges) [] []
      List.nodup_nil (fun x hx => absurd hx (List.not_mem_nil x))
      (keysOf_subset_allNodes edges) (by simp [acyclicFuel]))

/-- C7.  The acyclicity check of `assert_acyclic` accepts exactly the
cycle-free `broader` graphs: it returns `ok` iff no node reaches itself
through a nonempty chain of child-to-parent edges; whenever it aborts,
the reported path contains every label of an actual directed cycle of
the graph; and the deliberately injected 3-node cycle 甲→乙→丙→甲 is
rejected with a report naming all three labels. -/
theorem C7_acyclicity_check :
    (∀ edges : List (String × String),
      (assertAcyclicE edges = .ok () ↔
        ¬ ∃ n, Relation.TransGen (edgeRel edges) n n)) ∧
    (∀ (edges : List (String × String)) (e : List String),
      assertAcyclicE edges = .error e → CycleIn edges e) ∧
    assertAcyclicE [("甲", "乙"), ("乙", "丙"), ("丙", "甲")] =
      .error ["甲", "乙", "丙", "甲"] := by
  refine ⟨?_, ?_, by rfl⟩
  · intro edges
    exact ⟨assertAcyclicE_ok_no_cycle edges, assertAcyclicE_complete edges⟩
  · exact fun edges e => assertAcyclicE_error_cycle edges e

/-- Witness for C7: instantiating the abort conclusion on the concrete
3-cycle, whose run is evaluated by `rfl`, yields a cycle inside the
reported path. -/
theorem C7_witness :
    CycleIn [("甲", "乙"), ("乙", "丙"), ("丙", "甲")] ["甲", "乙", "丙", "甲"] :=
  C7_acyclicity_check.2.1 [("甲", "乙"), ("乙", "丙"), ("丙", "甲")]
    ["甲", "乙", "丙", "甲"] (by rfl)

set_option maxRecDepth 40000 in
set_option maxHeartbeats 1000000 in
/-- C1.  The claim asserts byte-identical exported tables for two
independent runs with the same (seed, slug, quantities).  The code
derives exported timestamps from `now_utc()` (the wall clock), so two
runs at different instants differ: with identical configuration and an
identical random stream, the generated `items` table (whose
`acquired_at` column is `now_utc() - timedelta(days=...)`) differs
between a run at epoch second 0 and a run one day later. -/
theorem C1_items_table_depends_on_wall_clock :
    genItems cfgClock sClock 0 ≠ genItems cfgClock sClock 86400 := by decide

/-- C2.  Every modelled identifier is `uuid5` of the fixed namespace and
a name built from the tenant slug, the entity kind and a discriminator
only: the item ids are exactly `uuid5(ns, org + ":item:" + k)` for the
running barcode counter `k`, independent of seed, random stream and
wall clock; bib ids are `uuid5(ns, org + ":bib:" + i)`; the org id is
`uuid5(ns, "org:" + slug)`; user ids are `uuid5` of the external id;
and the item id at any position agrees between any two runs with the
same slug. -/
theorem C2_ids_are_pure_uuid5 :
    (∀ (cfg : ScaleConfig) (s : Streams) (now : Int),
      (genItems cfg s now).map ItemR.id =
        (List.range (genItems cfg s now).length).map
          (fun j => itemIdStr cfg.orgCode (1 + j))) ∧
    (∀ cfg : ScaleConfig, (genBibs cfg).map BibR.id =
      (List.range' 1 cfg.bibs).map (fun i => bibIdStr cfg.orgCode i)) ∧
    (∀ cfg : ScaleConfig, orgIdStr cfg.orgCode = uuid5Str ("org:" ++ cfg.orgCode)) ∧
    (∀ cfg : ScaleConfig, ∀ u ∈ genUsers cfg, u.id = userIdStr cfg.orgCode u.externalId) ∧
    (∀ (cfg : ScaleConfig) (s s2 : Streams) (now now2 : Int) (j : Nat)
      (h1 : j < (genItems cfg s now).length) (h2 : j < (genItems cfg s2 now2).length),
      ((genItems cfg s now).get ⟨j, h1⟩).id = ((genItems cfg s2 now2).get ⟨j, h2⟩).id) := by
  have hitem : ∀ (cfg : ScaleConfig) (s : Streams) (now : Int),
      (genItems cfg s now).map ItemR.id =
        (List.range (genItems cfg s now).length).map
          (fun j => itemIdStr cfg.orgCode (1 + j)) :=
    fun cfg s now => genItemsAux_map_id cfg s now cfg.bibs 1 1
  refine ⟨hitem, ?_, fun _ => rfl, genUsers_id_eq, ?_⟩
  · intro cfg
    simp [genBibs]
  · intro cfg s s2 now now2 j h1 h2
    have e1 := congrArg (fun l => l.get? j) (hitem cfg s now)
    have e2 := congrArg (fun l => l.get? j) (hitem cfg s2 now2)
    simp only [List.get?_map] at e1 e2
    rw [List.get?_eq_get h1] at e1
    rw [List.get?_eq_get h2] at e2
    have r1 : (List.range (genItems cfg s now).length).get? j =
        some j := List.get?_range h1
    have r2 : (List.range (genItems cfg s2 now2).length).get? j =
        some j := List.get?_range h2
    rw [r1] at e1
    rw [r2] at e2
    simp only [Option.map_some'] at e1 e2
    rw [Option.some_inj] at e1 e2
    rw [e1, e2]

/-- Witness for C2: the user-id and cross-run conjuncts instantiated at
a concrete configuration, the membership and index-bound hypotheses
discharged by evaluation. -/
theorem C2_witness :
    (0 < (genUsers cfgW3).length) ∧
    (0 < (genItems cfgW3 sTriv 0).length) ∧
    (0 < (genItems cfgW3 sClock 86400).length) ∧
    ((genUsers cfgW3).get ⟨0, by decide⟩).id =
      userIdStr cfgW3.orgCode ((genUsers cfgW3).get ⟨0, by decide⟩).externalId ∧
    ((genItems cfgW3 sTriv 0).get ⟨0, by decide⟩).id =
      ((genItems cfgW3 sClock 86400).get ⟨0, by decide⟩).id :=
  ⟨by decide, by decide, by decide,
    C2_ids_are_pure_uuid5.2.2.2.1 cfgW3 _ (List.get_mem _ _ _),
    C2_ids_are_pure_uuid5.2.2.2.2 cfgW3 sTriv sClock 0 86400 0 (by decide) (by decide)⟩

end SeedScale
